import Mathlib

/-!
# Verification of the revault_net message layer (`src/message.rs`)

A shallow embedding of the revault_net network-message module: the JSON
value model, the hex and decimal text codecs, the Bitcoin consensus
transaction codec used by `serde_tx_hex`, the ordered public-key map
backing `BTreeMap<PublicKey, Signature>`, the per-role message records,
and the untagged `Request`/`Response` envelopes with their serde
(de)serialization semantics.  Machine integers are modelled as `Nat`
with explicit bounds; fallible operations return `Option`.
-/

namespace Revault

/-! ## Hexadecimal text codec

Model of the hex encoding used for all byte payloads on the wire
(`ToHex`/`FromHex` from bitcoin_hashes): encoding emits two lowercase
hex digits per byte; decoding accepts both cases and fails on a
non-hex character or an odd-length string. -/

/-- The lowercase hex digit character for a value below 16. -/
def hexDigit (n : Nat) : Char :=
  if n < 10 then Char.ofNat (48 + n) else Char.ofNat (87 + n)

/-- The value of one hex digit character; both cases accepted, `none`
on a non-hex character. -/
def hexVal (c : Char) : Option Nat :=
  if 48 ≤ c.toNat ∧ c.toNat ≤ 57 then some (c.toNat - 48)
  else if 97 ≤ c.toNat ∧ c.toNat ≤ 102 then some (c.toNat - 87)
  else if 65 ≤ c.toNat ∧ c.toNat ≤ 70 then some (c.toNat - 55)
  else none

/-- One byte as two lowercase hex digits, high nibble first. -/
def byteToHex (b : Nat) : List Char :=
  [hexDigit (b / 16), hexDigit (b % 16)]

/-- A byte string as lowercase hex text, no separator, no prefix. -/
def bytesToHex : List Nat → List Char
  | [] => []
  | b :: bs => byteToHex b ++ bytesToHex bs

/-- Decode hex text to bytes: fails on odd length or a non-hex digit. -/
def hexToBytes : List Char → Option (List Nat)
  | [] => some []
  | [_] => none
  | c1 :: c2 :: rest => do
    let h ← hexVal c1
    let l ← hexVal c2
    let bs ← hexToBytes rest
    pure ((16 * h + l) :: bs)

/-- A character of lowercase hex output: a decimal digit or `a`-`f`. -/
def isLowerHexChar (c : Char) : Prop :=
  (48 ≤ c.toNat ∧ c.toNat ≤ 57) ∨ (97 ≤ c.toNat ∧ c.toNat ≤ 102)

instance (c : Char) : Decidable (isLowerHexChar c) := by
  unfold isLowerHexChar; infer_instance

theorem hexVal_hexDigit : ∀ n < 16, hexVal (hexDigit n) = some n := by decide

theorem isLowerHexChar_hexDigit : ∀ n < 16, isLowerHexChar (hexDigit n) := by decide

theorem byteToHex_lowerHex {b : Nat} (hb : b < 256) :
    ∀ c ∈ byteToHex b, isLowerHexChar c := by
  intro c hc
  have h1 : b / 16 < 16 := by omega
  have h2 : b % 16 < 16 := Nat.mod_lt _ (by omega)
  simp only [byteToHex, List.mem_cons, List.not_mem_nil, or_false] at hc
  rcases hc with rfl | rfl
  · exact isLowerHexChar_hexDigit _ h1
  · exact isLowerHexChar_hexDigit _ h2

theorem bytesToHex_lowerHex {bs : List Nat} (h : ∀ b ∈ bs, b < 256) :
    ∀ c ∈ bytesToHex bs, isLowerHexChar c := by
  induction bs with
  | nil => intro c hc; simp [bytesToHex] at hc
  | cons b rest ih =>
    intro c hc
    simp only [bytesToHex, List.mem_append] at hc
    rcases hc with hc | hc
    · exact byteToHex_lowerHex (h b (List.mem_cons_self _ _)) c hc
    · exact ih (fun x hx => h x (List.mem_cons_of_mem _ hx)) c hc

/-- Hex decode inverts hex encode on genuine byte strings. -/
theorem hexToBytes_bytesToHex {bs : List Nat} (h : ∀ b ∈ bs, b < 256) :
    hexToBytes (bytesToHex bs) = some bs := by
  induction bs with
  | nil => rfl
  | cons b rest ih =>
    have hb : b < 256 := h b (List.mem_cons_self _ _)
    have h1 : b / 16 < 16 := by omega
    have h2 : b % 16 < 16 := Nat.mod_lt _ (by omega)
    have hrest : hexToBytes (bytesToHex rest) = some rest :=
      ih fun x hx => h x (List.mem_cons_of_mem _ hx)
    simp only [bytesToHex, byteToHex, List.cons_append, List.nil_append]
    simp only [hexToBytes, hexVal_hexDigit _ h1, hexVal_hexDigit _ h2, Option.bind_some]
    rw [hrest]
    simp [Nat.div_add_mod]

/-! ## Decimal rendering and parsing

Used for the `vout` component of an `OutPoint`'s `txid:vout` string form
and for JSON number rendering.  The renderer is fuel-structured so that
it reduces inside the kernel; the parser is a digit fold, rejecting the
empty string and any non-digit. -/

/-- Render the decimal digits of `n`, given at least `n` recursion fuel. -/
def natToDecAux : Nat → Nat → List Char
  | 0, _ => []
  | f + 1, n =>
    if n < 10 then [hexDigit n]
    else natToDecAux f (n / 10) ++ [hexDigit (n % 10)]

/-- `n` in decimal, most significant digit first (`0` renders as `"0"`). -/
def natToDec (n : Nat) : List Char :=
  natToDecAux (n + 1) n

/-- The value of one decimal digit character. -/
def decDigit (c : Char) : Option Nat :=
  if 48 ≤ c.toNat ∧ c.toNat ≤ 57 then some (c.toNat - 48) else none

/-- Left fold of decimal digits onto an accumulator; `none` on a non-digit. -/
def decValAux : List Char → Nat → Option Nat
  | [], acc => some acc
  | c :: rest, acc => (decDigit c).bind fun d => decValAux rest (10 * acc + d)

/-- Parse a decimal numeral; fails on the empty string or a non-digit. -/
def decToNat : List Char → Option Nat
  | [] => none
  | c :: rest => decValAux (c :: rest) 0

theorem decDigit_hexDigit : ∀ n < 10, decDigit (hexDigit n) = some n := by decide

theorem natToDecAux_fuel : ∀ f1 f2 n, n < f1 → n < f2 →
    natToDecAux f1 n = natToDecAux f2 n := by
  intro f1
  induction f1 with
  | zero => omega
  | succ f ih =>
    intro f2 n h1 h2
    cases f2 with
    | zero => omega
    | succ f2 =>
      simp only [natToDecAux]
      by_cases h : n < 10
      · simp [h]
      · have hdiv : n / 10 < n := Nat.div_lt_self (by omega) (by omega)
        rw [if_neg h, if_neg h, ih f2 (n / 10) (by omega) (by omega)]

theorem natToDec_step {n : Nat} (h : ¬ n < 10) :
    natToDec n = natToDec (n / 10) ++ [hexDigit (n % 10)] := by
  have hdiv : n / 10 < n := Nat.div_lt_self (by omega) (by omega)
  show natToDecAux (n + 1) n = natToDecAux (n / 10 + 1) (n / 10) ++ [hexDigit (n % 10)]
  rw [show natToDecAux (n + 1) n =
      if n < 10 then [hexDigit n] else natToDecAux n (n / 10) ++ [hexDigit (n % 10)] from rfl,
    if_neg h, natToDecAux_fuel n (n / 10 + 1) (n / 10) (by omega) (by omega)]

theorem natToDec_ne_nil (n : Nat) : natToDec n ≠ [] := by
  by_cases h : n < 10
  · simp [natToDec, natToDecAux, h]
  · rw [natToDec_step h]; simp

theorem decValAux_append (l1 l2 : List Char) (acc : Nat) :
    decValAux (l1 ++ l2) acc =
      (decValAux l1 acc).bind fun v => decValAux l2 v := by
  induction l1 generalizing acc with
  | nil => rfl
  | cons c rest ih =>
    simp only [List.cons_append, decValAux]
    cases decDigit c with
    | none => rfl
    | some d => simp [ih]

theorem decToNat_natToDec_small : ∀ n < 10, decToNat (natToDec n) = some n := by decide

theorem decToNat_natToDec (n : Nat) : decToNat (natToDec n) = some n := by
  induction n using Nat.strong_induction_on with
  | _ n ih =>
    by_cases h : n < 10
    · exact decToNat_natToDec_small n h
    · have hdiv : n / 10 < n := Nat.div_lt_self (by omega) (by omega)
      have ihd := ih (n / 10) hdiv
      rw [natToDec_step h]
      obtain ⟨c, rest, hcr⟩ : ∃ c rest, natToDec (n / 10) = c :: rest := by
        cases hd : natToDec (n / 10) with
        | nil => exact absurd hd (natToDec_ne_nil _)
        | cons c rest => exact ⟨c, rest, rfl⟩
      rw [hcr]
      simp only [decToNat, List.cons_append]
      rw [hcr] at ihd
      simp only [decToNat] at ihd
      have happ : decValAux ((c :: rest) ++ [hexDigit (n % 10)]) 0 =
          (decValAux (c :: rest) 0).bind fun v => decValAux [hexDigit (n % 10)] v :=
        decValAux_append _ _ 0
      simp only [List.cons_append] at happ
      rw [happ, ihd]
      have hm : n % 10 < 10 := Nat.mod_lt _ (by omega)
      simp [decValAux, decDigit_hexDigit _ hm, Nat.div_add_mod]

theorem hexDigit_digit_range : ∀ m < 10, 48 ≤ (hexDigit m).toNat ∧ (hexDigit m).toNat ≤ 57 := by
  decide

theorem natToDec_digits_small : ∀ n < 10, ∀ c ∈ natToDec n,
    48 ≤ c.toNat ∧ c.toNat ≤ 57 := by decide

/-- Every character of a decimal rendering is a decimal digit. -/
theorem natToDec_digits (n : Nat) : ∀ c ∈ natToDec n, 48 ≤ c.toNat ∧ c.toNat ≤ 57 := by
  induction n using Nat.strong_induction_on with
  | _ n ih =>
    by_cases h : n < 10
    · exact natToDec_digits_small n h
    · rw [natToDec_step h]
      intro c hc
      rcases List.mem_append.1 hc with hc | hc
      · exact ih (n / 10) (Nat.div_lt_self (by omega) (by omega)) c hc
      · have hm : n % 10 < 10 := Nat.mod_lt _ (by omega)
        simp only [List.mem_singleton] at hc
        subst hc
        exact hexDigit_digit_range _ hm

/-! ## Byte-stream primitives for the consensus codec

The Bitcoin consensus serialization consumed through `revault_tx` /
rust-bitcoin's `consensus::encode`.  Decoders take a byte stream and
return the parsed value with the unconsumed tail, mirroring the
reference deserializer. -/

/-- Take exactly `k` bytes off the stream. -/
def readBytes (k : Nat) (s : List Nat) : Option (List Nat × List Nat) :=
  if k ≤ s.length then some (s.take k, s.drop k) else none

theorem readBytes_append {bs : List Nat} {k : Nat} (h : bs.length = k) (rest : List Nat) :
    readBytes k (bs ++ rest) = some (bs, rest) := by
  subst h
  simp [readBytes, List.take_append, List.drop_append]

/-- Fixed-width little-endian encoding of `n` on `w` bytes. -/
def encLE : Nat → Nat → List Nat
  | 0, _ => []
  | w + 1, n => n % 256 :: encLE w (n / 256)

/-- The value of a little-endian byte string. -/
def leVal : List Nat → Nat
  | [] => 0
  | b :: bs => b + 256 * leVal bs

/-- Read a `w`-byte little-endian unsigned integer. -/
def readLE (w : Nat) (s : List Nat) : Option (Nat × List Nat) :=
  (readBytes w s).map fun p => (leVal p.1, p.2)

theorem encLE_length (w n : Nat) : (encLE w n).length = w := by
  induction w generalizing n with
  | zero => rfl
  | succ w ih => simp [encLE, ih]

theorem encLE_bytes_lt (w n : Nat) : ∀ b ∈ encLE w n, b < 256 := by
  induction w generalizing n with
  | zero => intro b hb; simp [encLE] at hb
  | succ w ih =>
    intro b hb
    simp only [encLE, List.mem_cons] at hb
    rcases hb with rfl | hb
    · exact Nat.mod_lt _ (by omega)
    · exact ih (n / 256) b hb

theorem leVal_encLE {w n : Nat} (h : n < 256 ^ w) : leVal (encLE w n) = n := by
  induction w generalizing n with
  | zero =>
    simp only [Nat.pow_zero, Nat.lt_one_iff] at h
    simp [encLE, leVal, h]
  | succ w ih =>
    have hdiv : n / 256 < 256 ^ w := by
      rw [Nat.div_lt_iff_lt_mul (by omega)]
      calc n < 256 ^ (w + 1) := h
        _ = 256 ^ w * 256 := by ring
    simp only [encLE, leVal, ih hdiv]
    omega

theorem readLE_encLE {w n : Nat} (h : n < 256 ^ w) (rest : List Nat) :
    readLE w (encLE w n ++ rest) = some (n, rest) := by
  simp [readLE, readBytes_append (encLE_length w n), leVal_encLE h]

/-- Bitcoin CompactSize (VarInt) encoding: shortest of the four forms. -/
def encVarint (n : Nat) : List Nat :=
  if n < 253 then [n]
  else if n < 2 ^ 16 then 253 :: encLE 2 n
  else if n < 2 ^ 32 then 254 :: encLE 4 n
  else 255 :: encLE 8 n

/-- Read a CompactSize integer, rejecting non-minimal encodings, as
rust-bitcoin's `VarInt` decoder does. -/
def readVarint (s : List Nat) : Option (Nat × List Nat) :=
  match s with
  | [] => none
  | b :: rest =>
    if b < 253 then some (b, rest)
    else if b = 253 then
      (readLE 2 rest).bind fun p => if 253 ≤ p.1 then some p else none
    else if b = 254 then
      (readLE 4 rest).bind fun p => if 2 ^ 16 ≤ p.1 then some p else none
    else
      (readLE 8 rest).bind fun p => if 2 ^ 32 ≤ p.1 then some p else none

theorem readVarint_encVarint {n : Nat} (h : n < 2 ^ 64) (rest : List Nat) :
    readVarint (encVarint n ++ rest) = some (n, rest) := by
  by_cases h1 : n < 253
  · simp [encVarint, readVarint, h1]
  · by_cases h2 : n < 2 ^ 16
    · have hr := readLE_encLE (w := 2) (n := n) (by norm_num; omega) rest
      have h2n : n < 65536 := by omega
      simp [encVarint, readVarint, h1, h2, h2n, hr, show 253 ≤ n by omega]
    · by_cases h3 : n < 2 ^ 32
      · have hr := readLE_encLE (w := 4) (n := n) (by norm_num; omega) rest
        have h2n : ¬ n < 65536 := by omega
        have h3n : n < 4294967296 := by omega
        simp [encVarint, readVarint, h1, h2, h3, h2n, h3n, hr, show 65536 ≤ n by omega]
      · have hr := readLE_encLE (w := 8) (n := n) (by norm_num; omega) rest
        have h2n : ¬ n < 65536 := by omega
        have h3n : ¬ n < 4294967296 := by omega
        simp [encVarint, readVarint, h1, h2, h3, h2n, h3n, hr, show 4294967296 ≤ n by omega]

/-- Length-prefixed byte string (scripts, witness items). -/
def encVarBytes (bs : List Nat) : List Nat :=
  encVarint bs.length ++ bs

/-- Read a length-prefixed byte string. -/
def readVarBytes (s : List Nat) : Option (List Nat × List Nat) :=
  (readVarint s).bind fun p => readBytes p.1 p.2

theorem readVarBytes_encVarBytes {bs : List Nat} (h : bs.length < 2 ^ 64)
    (rest : List Nat) : readVarBytes (encVarBytes bs ++ rest) = some (bs, rest) := by
  simp only [encVarBytes, List.append_assoc, readVarBytes, readVarint_encVarint h,
    Option.bind_some]
  exact readBytes_append rfl rest

/-- Read exactly `k` consecutive values with the given element reader. -/
def readCount {α : Type} (rd : List Nat → Option (α × List Nat)) :
    Nat → List Nat → Option (List α × List Nat)
  | 0, s => some ([], s)
  | k + 1, s =>
    (rd s).bind fun p =>
      (readCount rd k p.2).map fun q => (p.1 :: q.1, q.2)

/-- A CompactSize count followed by that many elements (rust-bitcoin's
`Vec` consensus encoding). -/
def encVec {α : Type} (enc : α → List Nat) (xs : List α) : List Nat :=
  encVarint xs.length ++ (xs.map enc).flatten

/-- Read a CompactSize-counted vector. -/
def readVec {α : Type} (rd : List Nat → Option (α × List Nat)) (s : List Nat) :
    Option (List α × List Nat) :=
  (readVarint s).bind fun p => readCount rd p.1 p.2

/-- Element-wise round-trip lifts to `readCount` over concatenated
encodings, with an element translation `f` (the transaction decoder
reads inputs without their witness, so the translation is not always
the identity). -/
theorem readCount_encoded {α β : Type} {rd : List Nat → Option (β × List Nat)}
    {enc : α → List Nat} {f : α → β} {xs : List α}
    (h : ∀ x ∈ xs, ∀ r : List Nat, rd (enc x ++ r) = some (f x, r)) (rest : List Nat) :
    readCount rd xs.length ((xs.map enc).flatten ++ rest) = some (xs.map f, rest) := by
  induction xs with
  | nil => rfl
  | cons x xs ih =>
    simp only [List.map_cons, List.flatten_cons, List.length_cons, List.append_assoc]
    simp only [readCount, h x (List.mem_cons_self _ _), Option.some_bind]
    rw [ih fun y hy r => h y (List.mem_cons_of_mem _ hy) r]
    rfl

theorem readVec_encVec {α β : Type} {rd : List Nat → Option (β × List Nat)}
    {enc : α → List Nat} {f : α → β} {xs : List α}
    (h : ∀ x ∈ xs, ∀ r : List Nat, rd (enc x ++ r) = some (f x, r))
    (hlen : xs.length < 2 ^ 64) (rest : List Nat) :
    readVec rd (encVec enc xs ++ rest) = some (xs.map f, rest) := by
  simp only [encVec, List.append_assoc, readVec, readVarint_encVarint hlen,
    Option.bind_some]
  exact readCount_encoded h rest

/-! ## Transaction model and consensus codec

The binary transaction object carried opaquely by the protocol,
with rust-bitcoin's consensus serialization: legacy layout
`version ‖ inputs ‖ outputs ‖ lock_time` when the input list is
nonempty and no input has witness data, and the BIP141 segwit layout
`version ‖ 0x00 0x01 ‖ inputs ‖ outputs ‖ witnesses ‖ lock_time`
otherwise (a transaction with no inputs is deliberately serialized in
segwit form to avoid serialization ambiguity).  The decoder mirrors
the reference implementation: an empty input vector signals the
segwit marker, the flag byte must be `1`, and a segwit body with
nonempty inputs all of whose witnesses are empty is rejected as
non-canonical. -/

/-- A transaction input: previous outpoint, script, sequence, witness. -/
structure TxIn where
  prevTxid : List Nat
  prevVout : Nat
  scriptSig : List Nat
  sequence : Nat
  witness : List (List Nat)
deriving DecidableEq

/-- A transaction output: value and script. -/
structure TxOut where
  value : Nat
  scriptPubkey : List Nat
deriving DecidableEq

/-- A Bitcoin transaction. -/
structure Transaction where
  version : Nat
  input : List TxIn
  output : List TxOut
  lockTime : Nat
deriving DecidableEq

/-- Strip the witness from an input (inputs are consensus-encoded
without their witness). -/
def clearWitness (i : TxIn) : TxIn := { i with witness := [] }

/-- Consensus encoding of an input (witness excluded). -/
def encTxIn (i : TxIn) : List Nat :=
  i.prevTxid ++ encLE 4 i.prevVout ++ encVarBytes i.scriptSig ++ encLE 4 i.sequence

/-- Consensus encoding of an output. -/
def encTxOut (o : TxOut) : List Nat :=
  encLE 8 o.value ++ encVarBytes o.scriptPubkey

/-- Consensus encoding of one input's witness stack. -/
def encWitness (i : TxIn) : List Nat := encVec encVarBytes i.witness

/-- rust-bitcoin's `have_witness`: the segwit layout is used when the
input list is empty (to avoid serialization ambiguity) or some input
carries witness data. -/
def txHaveWitness (t : Transaction) : Bool :=
  t.input.isEmpty || t.input.any fun i => !i.witness.isEmpty

/-- Consensus encoding of a transaction. -/
def encTx (t : Transaction) : List Nat :=
  if txHaveWitness t then
    encLE 4 t.version ++ 0 :: 1 :: (encVec encTxIn t.input ++ encVec encTxOut t.output ++
      (t.input.map encWitness).flatten ++ encLE 4 t.lockTime)
  else
    encLE 4 t.version ++ encVec encTxIn t.input ++ encVec encTxOut t.output ++
      encLE 4 t.lockTime

/-- Read one input (witness left empty, as in the reference decoder). -/
def readTxIn (s : List Nat) : Option (TxIn × List Nat) :=
  (readBytes 32 s).bind fun p1 =>
  (readLE 4 p1.2).bind fun p2 =>
  (readVarBytes p2.2).bind fun p3 =>
  (readLE 4 p3.2).map fun p4 =>
  (⟨p1.1, p2.1, p3.1, p4.1, []⟩, p4.2)

/-- Read one output. -/
def readTxOut (s : List Nat) : Option (TxOut × List Nat) :=
  (readLE 8 s).bind fun p1 =>
  (readVarBytes p1.2).map fun p2 =>
  (⟨p1.1, p2.1⟩, p2.2)

/-- Read one input's witness stack. -/
def readWitness (s : List Nat) : Option (List (List Nat) × List Nat) :=
  readVec readVarBytes s

/-- Consensus decoding of a transaction, returning the unconsumed tail. -/
def decTx (s : List Nat) : Option (Transaction × List Nat) :=
  (readLE 4 s).bind fun pv =>
  (readVec readTxIn pv.2).bind fun pi =>
  if pi.1.isEmpty then
    match pi.2 with
    | [] => none
    | flag :: r3 =>
      if flag = 1 then
        (readVec readTxIn r3).bind fun pi2 =>
        (readVec readTxOut pi2.2).bind fun po =>
        (readCount readWitness pi2.1.length po.2).bind fun pw =>
        if !pi2.1.isEmpty &&
            (List.zipWith (fun i w => { i with witness := w }) pi2.1 pw.1).all
              (fun i => i.witness.isEmpty) then none
        else
          (readLE 4 pw.2).map fun pl =>
          (⟨pv.1, List.zipWith (fun i w => { i with witness := w }) pi2.1 pw.1,
            po.1, pl.1⟩, pl.2)
      else none
  else
    (readVec readTxOut pi.2).bind fun po =>
    (readLE 4 po.2).map fun pl =>
    (⟨pv.1, pi.1, po.1, pl.1⟩, pl.2)

/-- `consensus::encode::deserialize`: a parse must consume every byte. -/
def decTxFull (bs : List Nat) : Option Transaction :=
  (decTx bs).bind fun p => if p.2.isEmpty then some p.1 else none

/-- Well-formed byte string: each element is one byte. -/
def WfBytes (bs : List Nat) : Prop := ∀ b ∈ bs, b < 256

/-- The field bounds the rust types impose on an input. -/
def WfTxIn (i : TxIn) : Prop :=
  i.prevTxid.length = 32 ∧ WfBytes i.prevTxid ∧ i.prevVout < 2 ^ 32 ∧
  WfBytes i.scriptSig ∧ i.scriptSig.length < 2 ^ 64 ∧ i.sequence < 2 ^ 32 ∧
  (∀ w ∈ i.witness, WfBytes w ∧ w.length < 2 ^ 64) ∧ i.witness.length < 2 ^ 64

/-- The field bounds the rust types impose on an output. -/
def WfTxOut (o : TxOut) : Prop :=
  o.value < 2 ^ 64 ∧ WfBytes o.scriptPubkey ∧ o.scriptPubkey.length < 2 ^ 64

/-- The field bounds the rust types impose on a transaction. -/
def WfTx (t : Transaction) : Prop :=
  t.version < 2 ^ 32 ∧ (∀ i ∈ t.input, WfTxIn i) ∧ t.input.length < 2 ^ 64 ∧
  (∀ o ∈ t.output, WfTxOut o) ∧ t.output.length < 2 ^ 64 ∧ t.lockTime < 2 ^ 32

instance : DecidablePred WfBytes := fun bs => by unfold WfBytes; infer_instance

instance : DecidablePred WfTxIn := fun i => by unfold WfTxIn WfBytes; infer_instance

instance : DecidablePred WfTxOut := fun o => by unfold WfTxOut WfBytes; infer_instance

instance : DecidablePred WfTx := fun t => by unfold WfTx; infer_instance

theorem readTxIn_encTxIn {i : TxIn} (h : WfTxIn i) (rest : List Nat) :
    readTxIn (encTxIn i ++ rest) = some (clearWitness i, rest) := by
  obtain ⟨h1, _, h3, _, h5, h6, _, _⟩ := h
  simp only [encTxIn, List.append_assoc, readTxIn,
    readBytes_append h1, Option.some_bind,
    readLE_encLE (show i.prevVout < 256 ^ 4 by norm_num at h3 ⊢; omega),
    readVarBytes_encVarBytes h5,
    readLE_encLE (show i.sequence < 256 ^ 4 by norm_num at h6 ⊢; omega),
    Option.map_some]
  rfl

theorem readTxOut_encTxOut {o : TxOut} (h : WfTxOut o) (rest : List Nat) :
    readTxOut (encTxOut o ++ rest) = some (o, rest) := by
  obtain ⟨h1, _, h3⟩ := h
  simp only [encTxOut, List.append_assoc, readTxOut,
    readLE_encLE (show o.value < 256 ^ 8 by norm_num at h1 ⊢; omega), Option.some_bind,
    readVarBytes_encVarBytes h3]
  rfl

theorem readWitness_encWitness {i : TxIn} (h : ∀ w ∈ i.witness, WfBytes w ∧ w.length < 2 ^ 64)
    (hlen : i.witness.length < 2 ^ 64) (rest : List Nat) :
    readWitness (encWitness i ++ rest) = some (i.witness, rest) := by
  have := readVec_encVec (f := id)
    (fun w hw r => readVarBytes_encVarBytes (h w hw).2 r) hlen rest
  simpa [encWitness, readWitness] using this

theorem clearWitness_eq_self {i : TxIn} (h : i.witness = []) : clearWitness i = i := by
  cases i
  simp only [clearWitness] at *
  simp [h]

theorem zipWith_witness_self (l : List TxIn) :
    List.zipWith (fun i w => { i with witness := w }) (l.map clearWitness)
      (l.map TxIn.witness) = l := by
  induction l with
  | nil => rfl
  | cons i rest ih => cases i; simp [clearWitness, ih]

/-- Round-trip of the consensus transaction codec, for any well-formed
transaction — zero-input transactions included, via their BIP141
serialization — trailing bytes preserved. -/
theorem decTx_encTx {t : Transaction} (h : WfTx t) (rest : List Nat) :
    decTx (encTx t ++ rest) = some (t, rest) := by
  obtain ⟨hv, hins, hinlen, houts, houtlen, hl⟩ := h
  have hv' : t.version < 256 ^ 4 := by norm_num at hv ⊢; omega
  have hl' : t.lockTime < 256 ^ 4 := by norm_num at hl ⊢; omega
  have hinrd : ∀ i ∈ t.input, ∀ r : List Nat,
      readTxIn (encTxIn i ++ r) = some (clearWitness i, r) :=
    fun i hi r => readTxIn_encTxIn (hins i hi) r
  have houtrd : ∀ o ∈ t.output, ∀ r : List Nat,
      readTxOut (encTxOut o ++ r) = some (o, r) :=
    fun o ho r => readTxOut_encTxOut (houts o ho) r
  by_cases hw : txHaveWitness t
  · -- segwit layout
    have hwitrd : ∀ i ∈ t.input, ∀ r : List Nat,
        readWitness (encWitness i ++ r) = some (i.witness, r) := by
      intro i hi r
      obtain ⟨_, _, _, _, _, _, h7, h8⟩ := hins i hi
      exact readWitness_encWitness h7 h8 r
    simp only [encTx, if_pos hw, List.append_assoc, List.cons_append]
    simp only [decTx, readLE_encLE hv', Option.some_bind]
    rw [show readVec readTxIn ((0 : Nat) :: 1 :: (encVec encTxIn t.input ++
        (encVec encTxOut t.output ++ ((List.map encWitness t.input).flatten ++
        (encLE 4 t.lockTime ++ rest))))) = some (([] : List TxIn),
        1 :: (encVec encTxIn t.input ++ (encVec encTxOut t.output ++
        ((List.map encWitness t.input).flatten ++ (encLE 4 t.lockTime ++ rest)))))
      from rfl]
    simp only [Option.some_bind, List.isEmpty_nil, if_true]
    rw [readVec_encVec hinrd hinlen, Option.some_bind,
      readVec_encVec houtrd houtlen, Option.some_bind]
    have hlen2 : (t.input.map clearWitness).length = t.input.length := by simp
    rw [hlen2]
    have hcnt := readCount_encoded (f := TxIn.witness) hwitrd
      (encLE 4 t.lockTime ++ rest)
    rw [hcnt, Option.some_bind, zipWith_witness_self]
    have hcond : (!(t.input.map clearWitness).isEmpty &&
        t.input.all fun i => i.witness.isEmpty) = false := by
      cases ht : t.input with
      | nil => simp
      | cons a l =>
        simp only [txHaveWitness] at hw
        rw [ht] at hw
        simp only [List.isEmpty_cons, Bool.false_or] at hw
        have hall : ((a :: l).all fun i => i.witness.isEmpty) = false := by
          cases hcase : (a :: l).all fun i => i.witness.isEmpty
          · rfl
          · rcases List.any_eq_true.1 hw with ⟨i, hi, hwit⟩
            have hie := List.all_eq_true.1 hcase i hi
            simp [hie] at hwit
        rw [hall, Bool.and_false]
    rw [if_neg (by simp [hcond])]
    rw [readLE_encLE hl']
    simp
  · -- legacy layout
    have hne : t.input ≠ [] := by
      intro hnil
      apply hw
      simp [txHaveWitness, hnil]
    have hempty : ∀ i ∈ t.input, i.witness = [] := by
      intro i hi
      by_contra hnil
      apply hw
      simp only [txHaveWitness, Bool.or_eq_true, List.any_eq_true]
      exact Or.inr ⟨i, hi, by simp [hnil]⟩
    have hinrd' : ∀ i ∈ t.input, ∀ r : List Nat,
        readTxIn (encTxIn i ++ r) = some (i, r) := by
      intro i hi r
      rw [hinrd i hi r, clearWitness_eq_self (hempty i hi)]
    simp only [encTx, if_neg hw, List.append_assoc]
    simp only [decTx, readLE_encLE hv', Option.some_bind]
    rw [readVec_encVec hinrd' hinlen, Option.some_bind]
    have hmapin : List.map (fun x : TxIn => x) t.input = t.input := by simp
    rw [hmapin]
    have hne2 : t.input.isEmpty = false := by
      cases ht : t.input with
      | nil => exact absurd ht hne
      | cons a l => simp [ht]
    rw [if_neg (by simp [hne2])]
    rw [readVec_encVec houtrd houtlen, Option.some_bind, readLE_encLE hl']
    simp

/-- Full-consumption round-trip (`consensus::encode::deserialize`). -/
theorem decTxFull_encTx {t : Transaction} (h : WfTx t) :
    decTxFull (encTx t) = some t := by
  have := decTx_encTx h []
  rw [List.append_nil] at this
  simp [decTxFull, this]

theorem encVarint_bytes_lt (n : Nat) : WfBytes (encVarint n) := by
  intro b hb
  simp only [encVarint] at hb
  split at hb
  · simp only [List.mem_singleton] at hb; omega
  · split at hb
    · rcases List.mem_cons.1 hb with rfl | hb
      · omega
      · exact encLE_bytes_lt _ _ b hb
    · split at hb
      · rcases List.mem_cons.1 hb with rfl | hb
        · omega
        · exact encLE_bytes_lt _ _ b hb
      · rcases List.mem_cons.1 hb with rfl | hb
        · omega
        · exact encLE_bytes_lt _ _ b hb

theorem encVarBytes_bytes_lt {bs : List Nat} (h : WfBytes bs) :
    WfBytes (encVarBytes bs) := by
  intro b hb
  rcases List.mem_append.1 hb with hb | hb
  · exact encVarint_bytes_lt _ b hb
  · exact h b hb

theorem encVec_bytes_lt {α : Type} {enc : α → List Nat} {xs : List α}
    (h : ∀ x ∈ xs, WfBytes (enc x)) : WfBytes (encVec enc xs) := by
  intro b hb
  rcases List.mem_append.1 hb with hb | hb
  · exact encVarint_bytes_lt _ b hb
  · obtain ⟨l, hl, hbl⟩ := List.mem_flatten.1 hb
    obtain ⟨x, hx, rfl⟩ := List.mem_map.1 hl
    exact h x hx b hbl

theorem encTxIn_bytes_lt {i : TxIn} (h : WfTxIn i) : WfBytes (encTxIn i) := by
  obtain ⟨_, h2, _, h4, _, _, _, _⟩ := h
  intro b hb
  simp only [encTxIn, List.append_assoc, List.mem_append] at hb
  rcases hb with hb | hb | hb | hb
  · exact h2 b hb
  · exact encLE_bytes_lt _ _ b hb
  · exact encVarBytes_bytes_lt h4 b hb
  · exact encLE_bytes_lt _ _ b hb

theorem encTxOut_bytes_lt {o : TxOut} (h : WfTxOut o) : WfBytes (encTxOut o) := by
  obtain ⟨_, h2, _⟩ := h
  intro b hb
  rcases List.mem_append.1 hb with hb | hb
  · exact encLE_bytes_lt _ _ b hb
  · exact encVarBytes_bytes_lt h2 b hb

theorem encWitness_bytes_lt {i : TxIn} (h : WfTxIn i) : WfBytes (encWitness i) := by
  obtain ⟨_, _, _, _, _, _, h7, _⟩ := h
  exact encVec_bytes_lt fun w hw => encVarBytes_bytes_lt (h7 w hw).1

/-- Every byte of a consensus encoding is one byte wide. -/
theorem encTx_bytes_lt {t : Transaction} (h : WfTx t) : WfBytes (encTx t) := by
  obtain ⟨_, hins, _, houts, _, _⟩ := h
  intro b hb
  simp only [encTx] at hb
  split at hb <;> simp only [List.append_assoc, List.cons_append, List.mem_cons,
    List.mem_append] at hb
  · rcases hb with hb | rfl | rfl | hb | hb | hb | hb
    · exact encLE_bytes_lt _ _ b hb
    · omega
    · omega
    · exact encVec_bytes_lt (fun i hi => encTxIn_bytes_lt (hins i hi)) b hb
    · exact encVec_bytes_lt (fun o ho => encTxOut_bytes_lt (houts o ho)) b hb
    · obtain ⟨l, hl, hbl⟩ := List.mem_flatten.1 hb
      obtain ⟨i, hi, rfl⟩ := List.mem_map.1 hl
      exact encWitness_bytes_lt (hins i hi) b hbl
    · exact encLE_bytes_lt _ _ b hb
  · rcases hb with hb | hb | hb | hb
    · exact encLE_bytes_lt _ _ b hb
    · exact encVec_bytes_lt (fun i hi => encTxIn_bytes_lt (hins i hi)) b hb
    · exact encVec_bytes_lt (fun o ho => encTxOut_bytes_lt (houts o ho)) b hb
    · exact encLE_bytes_lt _ _ b hb

/-! ## The `serde_tx_hex` codec

`serialize` renders the consensus bytes as lowercase hex in a JSON
string; `deserialize` reads the string, decodes the hex, then
consensus-deserializes the bytes, failing on either step. -/

/-- `serde_tx_hex::serialize`, at the text level. -/
def serializeTxHex (t : Transaction) : String := ⟨bytesToHex (encTx t)⟩

/-- `serde_tx_hex::deserialize`, at the text level. -/
def deserializeTxHex (s : String) : Option Transaction :=
  (hexToBytes s.data).bind decTxFull

/-- Hex-level round-trip for protocol transactions. -/
theorem deserializeTxHex_serializeTxHex {t : Transaction} (h : WfTx t) :
    deserializeTxHex (serializeTxHex t) = some t := by
  simp only [deserializeTxHex, serializeTxHex,
    hexToBytes_bytesToHex (encTx_bytes_lt h), Option.some_bind]
  exact decTxFull_encTx h

/-! ## The JSON value model

The serde_json data model as this protocol uses it: strings, unsigned
integers, booleans, arrays and objects.  Serde structs read their
fields from an object by name: field order is free, an unknown field is
ignored, a missing or duplicated field is an error. -/

/-- A JSON value. -/
inductive Json where
  | str : String → Json
  | num : Nat → Json
  | bool : Bool → Json
  | arr : List Json → Json
  | obj : List (String × Json) → Json

/-- A JSON string literal (no character of this protocol needs escaping). -/
def renderString (s : String) : List Char :=
  '"' :: s.data ++ ['"']

/-- Comma-join rendered fragments. -/
def commaJoin (xs : List (List Char)) : List Char :=
  (xs.intersperse [',']).flatten

/-- Render a JSON value to wire text, serde_json compact style: fixed
member order as listed, no whitespace. -/
def Json.render : Json → List Char
  | .str s => renderString s
  | .num n => natToDec n
  | .bool true => ['t', 'r', 'u', 'e']
  | .bool false => ['f', 'a', 'l', 's', 'e']
  | .arr l => '[' :: commaJoin (l.attach.map fun x => Json.render x.1) ++ [']']
  | .obj l => Char.ofNat 123 :: commaJoin (l.attach.map fun x =>
      renderString x.1.1 ++ ':' :: Json.render x.1.2) ++ [Char.ofNat 125]
decreasing_by
  · have h := List.sizeOf_lt_of_mem x.2
    simp only [Json.arr.sizeOf_spec]
    omega
  · obtain ⟨⟨k, v⟩, hm⟩ := x
    have h := List.sizeOf_lt_of_mem hm
    simp only [Prod.mk.sizeOf_spec] at h
    simp only [Json.obj.sizeOf_spec]
    omega

/-- Look up a struct field in an object: the value if the name occurs
exactly once, `none` if missing or duplicated (serde's derived struct
deserializer errors on both). -/
def getField (ms : List (String × Json)) (name : String) : Option Json :=
  match ms.filter (fun kv => kv.1 = name) with
  | [kv] => some kv.2
  | _ => none

theorem getField_not_mem {ms : List (String × Json)} {name : String}
    (h : name ∉ ms.map Prod.fst) : getField ms name = none := by
  have hf : ms.filter (fun kv => kv.1 = name) = [] := by
    rw [List.filter_eq_nil_iff]
    intro kv hkv
    simp only [decide_eq_true_eq]
    intro heq
    exact h (List.mem_map.2 ⟨kv, hkv, heq⟩)
  simp [getField, hf]

/-- Expect a JSON string (serde `&str`/`String` deserialization). -/
def Json.asStr : Json → Option String
  | .str s => some s
  | _ => none

/-- Expect a JSON boolean. -/
def Json.asBool : Json → Option Bool
  | .bool b => some b
  | _ => none

/-- Expect a `u32`: an integer below `2^32`. -/
def Json.asU32 : Json → Option Nat
  | .num n => if n < 2 ^ 32 then some n else none
  | _ => none

/-! ## Opaque cryptographic values

`PublicKey`, `Signature`, `Txid` and `OutPoint` come from the secp256k1
and bitcoin crates; the spec treats them as opaque fixed-format byte
values with a hex (resp. `txid:vout`) text form.  Modelled from the
spec: a public key is 33 compressed bytes hex-encoded, a signature is
its DER bytes hex-encoded, a txid is 32 bytes hex-encoded in display
(reversed) order, an outpoint is `txid:vout` with a decimal `u32`
index. -/

/-- A compressed secp256k1 public key (33 raw bytes). -/
structure PublicKey where
  bytes : List Nat
deriving DecidableEq

/-- A DER-encoded ECDSA signature. -/
structure Signature where
  bytes : List Nat
deriving DecidableEq

/-- A transaction id (32 raw bytes, internal order). -/
structure Txid where
  bytes : List Nat
deriving DecidableEq

/-- A deposit outpoint: funding txid and output index. -/
structure OutPoint where
  txid : Txid
  vout : Nat
deriving DecidableEq

/-- Structural well-formedness of a compressed public key. -/
def WfPk (k : PublicKey) : Prop := k.bytes.length = 33 ∧ WfBytes k.bytes

/-- Structural well-formedness of a signature's DER bytes. -/
def WfSigVal (s : Signature) : Prop := WfBytes s.bytes

/-- Structural well-formedness of a txid. -/
def WfTxid (t : Txid) : Prop := t.bytes.length = 32 ∧ WfBytes t.bytes

/-- Structural well-formedness of an outpoint. -/
def WfOutPoint (o : OutPoint) : Prop := WfTxid o.txid ∧ o.vout < 2 ^ 32

instance : DecidablePred WfPk := fun k => by unfold WfPk WfBytes; infer_instance

instance : DecidablePred WfSigVal := fun s => by unfold WfSigVal WfBytes; infer_instance

instance : DecidablePred WfTxid := fun t => by unfold WfTxid WfBytes; infer_instance

instance : DecidablePred WfOutPoint := fun o => by
  unfold WfOutPoint WfTxid WfBytes; infer_instance

/-- The hex text of a public key. -/
def PublicKey.hexChars (k : PublicKey) : List Char := bytesToHex k.bytes

/-- Parse a public key from hex text (33 bytes required). -/
def PublicKey.fromHexChars (cs : List Char) : Option PublicKey :=
  (hexToBytes cs).bind fun bs => if bs.length = 33 then some ⟨bs⟩ else none

/-- Public key JSON form: a hex string. -/
def PublicKey.toJson (k : PublicKey) : Json := Json.str ⟨k.hexChars⟩

/-- Public key from JSON: a hex string. -/
def PublicKey.fromJson : Json → Option PublicKey
  | Json.str s => PublicKey.fromHexChars s.data
  | _ => none

/-- Signature JSON form: a hex string of the DER bytes. -/
def Signature.toJson (s : Signature) : Json := Json.str ⟨bytesToHex s.bytes⟩

/-- Signature from JSON: a hex string. -/
def Signature.fromJson : Json → Option Signature
  | Json.str s => (hexToBytes s.data).map Signature.mk
  | _ => none

/-- The display hex text of a txid (byte-reversed). -/
def Txid.hexChars (t : Txid) : List Char := bytesToHex t.bytes.reverse

/-- Txid JSON form: display hex string. -/
def Txid.toJson (t : Txid) : Json := Json.str ⟨t.hexChars⟩

/-- Txid from JSON: 32 hex-encoded bytes, display order. -/
def Txid.fromJson : Json → Option Txid
  | Json.str s => (hexToBytes s.data).bind fun bs =>
      if bs.length = 32 then some ⟨bs.reverse⟩ else none
  | _ => none

/-- Split a string at the first colon, as `OutPoint::from_str` does. -/
def splitAtColon : List Char → Option (List Char × List Char)
  | [] => none
  | c :: rest =>
    if c = ':' then some ([], rest)
    else (splitAtColon rest).map fun p => (c :: p.1, p.2)

/-- The `txid:vout` text of an outpoint. -/
def OutPoint.strChars (o : OutPoint) : List Char :=
  o.txid.hexChars ++ ':' :: natToDec o.vout

/-- Outpoint JSON form: the `txid:vout` string. -/
def OutPoint.toJson (o : OutPoint) : Json := Json.str ⟨o.strChars⟩

/-- Outpoint from JSON: split at the colon, parse the txid hex and the
decimal `u32` index. -/
def OutPoint.fromJson : Json → Option OutPoint
  | Json.str s =>
    (splitAtColon s.data).bind fun p =>
    (hexToBytes p.1).bind fun bs =>
    if bs.length = 32 then
      (decToNat p.2).bind fun v =>
      if v < 2 ^ 32 then some ⟨⟨bs.reverse⟩, v⟩ else none
    else none
  | _ => none

theorem pk_fromJson_toJson {k : PublicKey} (h : WfPk k) :
    PublicKey.fromJson k.toJson = some k := by
  simp [PublicKey.fromJson, PublicKey.toJson, PublicKey.fromHexChars, PublicKey.hexChars,
    hexToBytes_bytesToHex h.2, h.1]

theorem sig_fromJson_toJson {s : Signature} (h : WfSigVal s) :
    Signature.fromJson s.toJson = some s := by
  simp [Signature.fromJson, Signature.toJson, hexToBytes_bytesToHex h]

theorem txid_fromJson_toJson {t : Txid} (h : WfTxid t) :
    Txid.fromJson t.toJson = some t := by
  have hrev : WfBytes t.bytes.reverse := fun b hb => h.2 b (List.mem_reverse.1 hb)
  simp [Txid.fromJson, Txid.toJson, Txid.hexChars, hexToBytes_bytesToHex hrev, h.1]

theorem splitAtColon_append {l : List Char} (h : ∀ c ∈ l, c ≠ ':') (r : List Char) :
    splitAtColon (l ++ ':' :: r) = some (l, r) := by
  induction l with
  | nil => simp [splitAtColon]
  | cons c rest ih =>
    have hc : c ≠ ':' := h c (List.mem_cons_self _ _)
    have ih' := ih fun x hx => h x (List.mem_cons_of_mem _ hx)
    show splitAtColon (c :: (rest ++ ':' :: r)) = some (c :: rest, r)
    rw [show splitAtColon (c :: (rest ++ ':' :: r)) =
      if c = ':' then some ([], rest ++ ':' :: r)
      else (splitAtColon (rest ++ ':' :: r)).map (fun p => (c :: p.1, p.2)) from rfl]
    rw [if_neg hc, ih']
    rfl

theorem lowerHexChar_ne_colon {c : Char} (h : isLowerHexChar c) : c ≠ ':' := by
  intro heq
  subst heq
  revert h
  decide

theorem outpoint_fromJson_toJson {o : OutPoint} (h : WfOutPoint o) :
    OutPoint.fromJson o.toJson = some o := by
  obtain ⟨⟨hlen, hbytes⟩, hvout⟩ := h
  have hrev : WfBytes o.txid.bytes.reverse := fun b hb => hbytes b (List.mem_reverse.1 hb)
  have hnc : ∀ c ∈ bytesToHex o.txid.bytes.reverse, c ≠ ':' :=
    fun c hc => lowerHexChar_ne_colon (bytesToHex_lowerHex hrev c hc)
  simp only [OutPoint.fromJson, OutPoint.toJson, OutPoint.strChars,
    splitAtColon_append hnc, Option.some_bind, Txid.hexChars,
    hexToBytes_bytesToHex hrev, List.length_reverse, hlen, if_pos rfl,
    decToNat_natToDec, if_pos hvout, List.reverse_reverse]
  simp

/-! ## The ordered public-key map

`BTreeMap<PublicKey, Signature>` iterates its entries in ascending key
order, where rust-secp256k1 orders public keys by their serialized
(compressed) byte strings.  The map is modelled as the sorted entry
list the tree iterates, built by ordered insertion. -/

/-- Strict lexicographic order on byte strings. -/
def bytesLt : List Nat → List Nat → Bool
  | [], [] => false
  | [], _ :: _ => true
  | _ :: _, [] => false
  | a :: as, b :: bs => if a < b then true else if b < a then false else bytesLt as bs

/-- Public keys compare by their raw serialized bytes. -/
def pkLt (a b : PublicKey) : Bool := bytesLt a.bytes b.bytes

theorem bytesLt_asymm : ∀ {a b : List Nat}, bytesLt a b = true → bytesLt b a = false
  | [], [], h => by simp [bytesLt] at h
  | [], _ :: _, _ => rfl
  | _ :: _, [], h => by simp [bytesLt] at h
  | a :: as, b :: bs, h => by
    simp only [bytesLt] at h ⊢
    rcases Nat.lt_trichotomy a b with hab | hab | hab
    · rw [if_neg (show ¬ b < a by omega), if_pos hab]
    · subst hab
      rw [if_neg (show ¬ a < a by omega), if_neg (show ¬ a < a by omega)] at h ⊢
      exact bytesLt_asymm h
    · rw [if_neg (show ¬ a < b by omega), if_pos hab] at h
      simp at h

theorem bytesLt_trans : ∀ {a b c : List Nat},
    bytesLt a b = true → bytesLt b c = true → bytesLt a c = true
  | [], _, _ :: _, _, _ => rfl
  | [], _ :: _, [], _, h2 => by simp [bytesLt] at h2
  | [], [], [], h1, _ => by simp [bytesLt] at h1
  | _ :: _, [], _, h1, _ => by simp [bytesLt] at h1
  | _ :: _, _ :: _, [], _, h2 => by simp [bytesLt] at h2
  | a :: as, b :: bs, c :: cs, h1, h2 => by
    simp only [bytesLt] at h1 h2 ⊢
    rcases Nat.lt_trichotomy a b with hab | hab | hab
    · rcases Nat.lt_trichotomy b c with hbc | hbc | hbc
      · rw [if_pos (show a < c by omega)]
      · subst hbc
        rw [if_pos hab]
      · rw [if_neg (show ¬ b < c by omega), if_pos hbc] at h2
        simp at h2
    · subst hab
      rw [if_neg (show ¬ a < a by omega), if_neg (show ¬ a < a by omega)] at h1
      rcases Nat.lt_trichotomy a c with hbc | hbc | hbc
      · rw [if_pos hbc]
      · subst hbc
        rw [if_neg (show ¬ a < a by omega), if_neg (show ¬ a < a by omega)] at h2 ⊢
        exact bytesLt_trans h1 h2
      · rw [if_neg (show ¬ a < c by omega), if_pos hbc] at h2
        simp at h2
    · rw [if_neg (show ¬ a < b by omega), if_pos hab] at h1
      simp at h1

theorem bytesLt_eq_of_not : ∀ {a b : List Nat},
    bytesLt a b = false → bytesLt b a = false → a = b
  | [], [], _, _ => rfl
  | [], _ :: _, h1, _ => by simp [bytesLt] at h1
  | _ :: _, [], _, h2 => by simp [bytesLt] at h2
  | a :: as, b :: bs, h1, h2 => by
    rw [show bytesLt (a :: as) (b :: bs) =
      if a < b then true else if b < a then false else bytesLt as bs from rfl] at h1
    rw [show bytesLt (b :: bs) (a :: as) =
      if b < a then true else if a < b then false else bytesLt bs as from rfl] at h2
    rcases Nat.lt_trichotomy a b with hab | hab | hab
    · rw [if_pos hab] at h1
      simp at h1
    · subst hab
      rw [if_neg (show ¬ a < a by omega), if_neg (show ¬ a < a by omega)] at h1 h2
      rw [bytesLt_eq_of_not h1 h2]
    · rw [if_pos hab] at h2
      simp at h2

theorem bytesLt_irrefl (a : List Nat) : bytesLt a a = false := by
  cases h : bytesLt a a
  · rfl
  · have hfalse := bytesLt_asymm h
    rw [h] at hfalse
    exact hfalse

theorem pk_eq_of_bytes {a b : PublicKey} (h : a.bytes = b.bytes) : a = b := by
  cases a; cases b
  simpa using h

theorem pkLt_asymm {a b : PublicKey} (h : pkLt a b = true) : pkLt b a = false :=
  bytesLt_asymm h

theorem pkLt_trans {a b c : PublicKey} (h1 : pkLt a b = true) (h2 : pkLt b c = true) :
    pkLt a c = true :=
  bytesLt_trans h1 h2

theorem pkLt_eq_of_not {a b : PublicKey} (h1 : pkLt a b = false) (h2 : pkLt b a = false) :
    a = b :=
  pk_eq_of_bytes (bytesLt_eq_of_not h1 h2)

theorem pkLt_ne {a b : PublicKey} (h : pkLt a b = true) : a ≠ b := by
  intro heq
  subst heq
  rw [show pkLt a a = bytesLt a.bytes a.bytes from rfl, bytesLt_irrefl] at h
  exact absurd h (by simp)

/-- Ordered insertion, replacing an equal key (`BTreeMap::insert`). -/
def insertSorted (k : PublicKey) (v : Signature) :
    List (PublicKey × Signature) → List (PublicKey × Signature)
  | [] => [(k, v)]
  | (k', v') :: rest =>
    if pkLt k k' then (k, v) :: (k', v') :: rest
    else if pkLt k' k then (k', v') :: insertSorted k v rest
    else (k, v) :: rest

/-- A `BTreeMap` built by inserting the bindings of `l` in order. -/
def mapOfList (l : List (PublicKey × Signature)) : List (PublicKey × Signature) :=
  l.foldl (fun m kv => insertSorted kv.1 kv.2 m) []

/-- The `BTreeMap` invariant: entries strictly ascending by key bytes. -/
def SortedMap (m : List (PublicKey × Signature)) : Prop :=
  m.Pairwise fun a b => pkLt a.1 b.1 = true

instance : DecidablePred SortedMap := fun m => by unfold SortedMap; infer_instance

theorem mem_insertSorted {k : PublicKey} {v : Signature}
    {m : List (PublicKey × Signature)} {x : PublicKey × Signature}
    (h : x ∈ insertSorted k v m) : x = (k, v) ∨ x ∈ m := by
  induction m with
  | nil => simpa [insertSorted] using h
  | cons kv rest ih =>
    obtain ⟨k', v'⟩ := kv
    simp only [insertSorted] at h
    split at h
    · rcases List.mem_cons.1 h with rfl | h
      · exact Or.inl rfl
      · exact Or.inr h
    · split at h
      · rcases List.mem_cons.1 h with rfl | h
        · exact Or.inr (List.mem_cons_self _ _)
        · rcases ih h with h | h
          · exact Or.inl h
          · exact Or.inr (List.mem_cons_of_mem _ h)
      · rcases List.mem_cons.1 h with rfl | h
        · exact Or.inl rfl
        · exact Or.inr (List.mem_cons_of_mem _ h)

theorem insertSorted_sorted {k : PublicKey} {v : Signature}
    {m : List (PublicKey × Signature)} (h : SortedMap m) :
    SortedMap (insertSorted k v m) := by
  unfold SortedMap at h ⊢
  induction m with
  | nil => simp [insertSorted]
  | cons kv rest ih =>
    obtain ⟨k', v'⟩ := kv
    rw [List.pairwise_cons] at h
    obtain ⟨hhead, hrest⟩ := h
    simp only [insertSorted]
    split
    · rename_i hlt
      rw [List.pairwise_cons]
      constructor
      · intro x hx
        rcases List.mem_cons.1 hx with rfl | hx
        · exact hlt
        · exact pkLt_trans hlt (hhead x hx)
      · rw [List.pairwise_cons]
        exact ⟨hhead, hrest⟩
    · split
      · rename_i hnlt hgt
        rw [List.pairwise_cons]
        constructor
        · intro x hx
          rcases mem_insertSorted hx with rfl | hx
          · exact hgt
          · exact hhead x hx
        · exact ih hrest
      · rename_i hnlt hngt
        have hkeq : k' = k := pkLt_eq_of_not (by simpa using hngt) (by simpa using hnlt)
        subst hkeq
        rw [List.pairwise_cons]
        exact ⟨hhead, hrest⟩

theorem insertSorted_perm {k : PublicKey} {v : Signature}
    {m : List (PublicKey × Signature)} (h : k ∉ m.map Prod.fst) :
    (insertSorted k v m).Perm ((k, v) :: m) := by
  induction m with
  | nil => simp [insertSorted]
  | cons kv rest ih =>
    obtain ⟨k', v'⟩ := kv
    have hne : k ≠ k' := by
      intro heq
      exact h (by simp [heq])
    have hnotrest : k ∉ rest.map Prod.fst := by
      intro hmem
      exact h (by simp [hmem])
    simp only [insertSorted]
    split
    · exact List.Perm.refl _
    · split
      · exact ((ih hnotrest).cons (k', v')).trans (List.Perm.swap (k, v) (k', v') rest)
      · rename_i hnlt hngt
        have hkeq : k' = k := pkLt_eq_of_not (by simpa using hngt) (by simpa using hnlt)
        exact absurd hkeq.symm hne

theorem foldl_insert_sorted {l : List (PublicKey × Signature)}
    {acc : List (PublicKey × Signature)} (h : SortedMap acc) :
    SortedMap (l.foldl (fun m kv => insertSorted kv.1 kv.2 m) acc) := by
  induction l generalizing acc with
  | nil => exact h
  | cons kv rest ih => exact ih (insertSorted_sorted h)

/-- A built map is always sorted, whatever the insertion order. -/
theorem mapOfList_sorted (l : List (PublicKey × Signature)) :
    SortedMap (mapOfList l) :=
  foldl_insert_sorted (by simp [SortedMap])

theorem foldl_insert_perm : ∀ (l acc : List (PublicKey × Signature)),
    ((acc.map Prod.fst) ++ (l.map Prod.fst)).Nodup →
    (l.foldl (fun m kv => insertSorted kv.1 kv.2 m) acc).Perm (acc ++ l)
  | [], acc, _ => by simp
  | (k, v) :: rest, acc, h => by
    have hknotacc : k ∉ acc.map Prod.fst := by
      simp only [List.map_cons, List.nodup_append] at h
      intro hmem
      exact h.2.2 hmem (List.mem_cons_self _ _)
    have hperm1 : (insertSorted k v acc).Perm ((k, v) :: acc) := insertSorted_perm hknotacc
    have hkeys : ((insertSorted k v acc).map Prod.fst).Perm (k :: acc.map Prod.fst) := by
      simpa using hperm1.map Prod.fst
    have hnodup2 : (((insertSorted k v acc).map Prod.fst) ++ rest.map Prod.fst).Nodup := by
      have hpm : (k :: (acc.map Prod.fst ++ rest.map Prod.fst)).Perm
          (acc.map Prod.fst ++ k :: rest.map Prod.fst) := by
        simpa using (@List.perm_middle _ k (acc.map Prod.fst) (rest.map Prod.fst)).symm
      have hnd : (k :: (acc.map Prod.fst ++ rest.map Prod.fst)).Nodup :=
        hpm.symm.nodup (by simpa using h)
      have hp2 : ((k :: acc.map Prod.fst) ++ rest.map Prod.fst).Perm
          (((insertSorted k v acc).map Prod.fst) ++ rest.map Prod.fst) :=
        (hkeys.append_right (rest.map Prod.fst)).symm
      exact hp2.nodup (by simpa using hnd)
    have hstep : (rest.foldl (fun m kv => insertSorted kv.1 kv.2 m)
        (insertSorted k v acc)).Perm (insertSorted k v acc ++ rest) :=
      foldl_insert_perm rest (insertSorted k v acc) hnodup2
    have hmid : (((k, v) :: acc) ++ rest).Perm (acc ++ (k, v) :: rest) := by
      simpa using (@List.perm_middle _ (k, v) acc rest).symm
    exact hstep.trans ((hperm1.append_right rest).trans hmid)

/-- With pairwise-distinct keys, building the map only reorders the
bindings. -/
theorem mapOfList_perm {l : List (PublicKey × Signature)}
    (h : (l.map Prod.fst).Nodup) : (mapOfList l).Perm l := by
  have := foldl_insert_perm l [] (by simpa using h)
  simpa [mapOfList] using this

/-- Sorted entry lists are unique in their permutation class. -/
theorem eq_of_perm_of_sortedMap {m1 m2 : List (PublicKey × Signature)}
    (hp : m1.Perm m2) (h1 : SortedMap m1) (h2 : SortedMap m2) : m1 = m2 := by
  haveI : IsAntisymm (PublicKey × Signature) (fun a b => pkLt a.1 b.1 = true) :=
    ⟨fun a b hab hba => absurd hba (by simp [pkLt_asymm hab])⟩
  exact List.eq_of_perm_of_sorted hp h1 h2

theorem sortedMap_keys_nodup {m : List (PublicKey × Signature)} (h : SortedMap m) :
    (m.map Prod.fst).Nodup :=
  List.pairwise_map.2 (List.Pairwise.imp (fun hab => pkLt_ne hab) h)

/-- A sorted map re-inserts to itself. -/
theorem mapOfList_self {m : List (PublicKey × Signature)} (h : SortedMap m) :
    mapOfList m = m :=
  eq_of_perm_of_sortedMap (mapOfList_perm (sortedMap_keys_nodup h))
    (mapOfList_sorted m) h

/-! ## Sequence and map JSON codecs -/

/-- Fail-fast traversal: serde decodes a sequence by decoding each
element, aborting on the first failure. -/
def traverseOpt {α β : Type} (f : α → Option β) : List α → Option (List β)
  | [] => some []
  | x :: rest => (f x).bind fun y => (traverseOpt f rest).map fun ys => y :: ys

theorem traverseOpt_map {α β : Type} {f : α → Option β} {g : β → α} {xs : List β}
    (h : ∀ x ∈ xs, f (g x) = some x) : traverseOpt f (xs.map g) = some xs := by
  induction xs with
  | nil => rfl
  | cons x rest ih =>
    simp only [List.map_cons, traverseOpt, h x (List.mem_cons_self _ _), Option.some_bind,
      ih fun y hy => h y (List.mem_cons_of_mem _ hy)]
    rfl

/-- `BTreeMap<PublicKey, Signature>` serialization: one JSON object
member per entry, hex key to hex signature, in the map's (ascending
key) iteration order. -/
def sigMapToJson (m : List (PublicKey × Signature)) : Json :=
  Json.obj (m.map fun kv => (⟨kv.1.hexChars⟩, Signature.toJson kv.2))

/-- Decode one object member to a map entry. -/
def sigMapEntryFromMember (kv : String × Json) : Option (PublicKey × Signature) :=
  (PublicKey.fromHexChars kv.1.data).bind fun pk =>
  (Signature.fromJson kv.2).map fun sg => (pk, sg)

/-- `BTreeMap` deserialization: a JSON object whose members are decoded
in text order and inserted one by one. -/
def sigMapFromJson : Json → Option (List (PublicKey × Signature))
  | Json.obj ms => (traverseOpt sigMapEntryFromMember ms).map mapOfList
  | _ => none

/-- A well-formed in-memory map value: the `BTreeMap` ordering
invariant plus structural validity of keys and signatures. -/
def WfSigMap (m : List (PublicKey × Signature)) : Prop :=
  SortedMap m ∧ ∀ kv ∈ m, WfPk kv.1 ∧ WfSigVal kv.2

instance : DecidablePred WfSigMap := fun m => by
  unfold WfSigMap
  infer_instance

theorem sigMapEntry_roundtrip {kv : PublicKey × Signature}
    (h : WfPk kv.1 ∧ WfSigVal kv.2) :
    sigMapEntryFromMember (⟨kv.1.hexChars⟩, Signature.toJson kv.2) = some kv := by
  obtain ⟨⟨pk⟩, sg⟩ := kv
  obtain ⟨h1, h2⟩ := h
  have hlen : pk.length = 33 := h1.1
  have hwfb : WfBytes pk := h1.2
  have hsg : Signature.fromJson sg.toJson = some sg := sig_fromJson_toJson h2
  simp only [sigMapEntryFromMember, PublicKey.fromHexChars, PublicKey.hexChars]
  simp [hexToBytes_bytesToHex hwfb, hlen, hsg]

theorem sigMapFromJson_toJson {m : List (PublicKey × Signature)} (h : WfSigMap m) :
    sigMapFromJson (sigMapToJson m) = some m := by
  obtain ⟨hs, hwf⟩ := h
  simp only [sigMapToJson, sigMapFromJson,
    traverseOpt_map fun kv hkv => sigMapEntry_roundtrip (hwf kv hkv)]
  simp [mapOfList_self hs]

/-- `Vec<OutPoint>` as a JSON array of `txid:vout` strings. -/
def outPointListToJson (l : List OutPoint) : Json := Json.arr (l.map OutPoint.toJson)

/-- Decode a JSON array of outpoints. -/
def outPointListFromJson : Json → Option (List OutPoint)
  | Json.arr js => traverseOpt OutPoint.fromJson js
  | _ => none

/-- `Vec<Signature>` as a JSON array of hex strings. -/
def sigListToJson (l : List Signature) : Json := Json.arr (l.map Signature.toJson)

/-- Decode a JSON array of signatures. -/
def sigListFromJson : Json → Option (List Signature)
  | Json.arr js => traverseOpt Signature.fromJson js
  | _ => none

/-- The transaction field codec at the JSON level: `serde_tx_hex`
deserializes a JSON string, then hex, then consensus bytes. -/
def serdeTxHexFromJson : Json → Option Transaction
  | Json.str s => deserializeTxHex s
  | _ => none

theorem outPointList_roundtrip {l : List OutPoint} (h : ∀ o ∈ l, WfOutPoint o) :
    outPointListFromJson (outPointListToJson l) = some l := by
  simp only [outPointListToJson, outPointListFromJson]
  exact traverseOpt_map fun o ho => outpoint_fromJson_toJson (h o ho)

theorem sigList_roundtrip {l : List Signature} (h : ∀ s ∈ l, WfSigVal s) :
    sigListFromJson (sigListToJson l) = some l := by
  simp only [sigListToJson, sigListFromJson]
  exact traverseOpt_map fun s hs => sig_fromJson_toJson (h s hs)

theorem serdeTxHex_roundtrip {t : Transaction} (h : WfTx t) :
    serdeTxHexFromJson (Json.str (serializeTxHex t)) = some t := by
  simp only [serdeTxHexFromJson]
  exact deserializeTxHex_serializeTxHex h

/-! ## Per-role message records (`watchtower`, `coordinator`, `cosigner`)

The passive data records of `src/message.rs`, with their derived serde
serialization: one JSON object per record, fields in declaration
order. -/

/-- `watchtower::Sig`: all signatures for a revocation transaction. -/
structure watchtower.Sig where
  signatures : List (PublicKey × Signature)
  txid : Txid
  deposit_outpoint : OutPoint
deriving DecidableEq

/-- `watchtower::SigResult`: the watchtower's acknowledgement. -/
structure watchtower.SigResult where
  ack : Bool
  txid : Txid
deriving DecidableEq

/-- `coordinator::GetSigs`: fetch all signatures for a transaction. -/
structure coordinator.GetSigs where
  id : Txid
deriving DecidableEq

/-- `coordinator::Sigs`: the (possibly incomplete) signature mapping. -/
structure coordinator.Sigs where
  signatures : List (PublicKey × Signature)
deriving DecidableEq

/-- `coordinator::SetSpendTx`: advertise the fully signed spend
transaction for given deposits. -/
structure coordinator.SetSpendTx where
  deposit_outpoints : List OutPoint
  transaction : Transaction
deriving DecidableEq

/-- `coordinator::SetSpendResult`: the coordinator's acknowledgement. -/
structure coordinator.SetSpendResult where
  ack : Bool
deriving DecidableEq

/-- `coordinator::GetSpendTx`: fetch the spend transaction of a vault. -/
structure coordinator.GetSpendTx where
  deposit_outpoint : OutPoint
deriving DecidableEq

/-- `coordinator::SpendTx`: the requested spend transaction. -/
structure coordinator.SpendTx where
  transaction : Transaction
deriving DecidableEq

/-- `coordinator::Sig`: a single revocation-transaction signature. -/
structure coordinator.Sig where
  pubkey : PublicKey
  signature : Signature
  id : Txid
deriving DecidableEq

/-- `coordinator::SigResult`: the coordinator's acknowledgement. -/
structure coordinator.SigResult where
  ack : Bool
deriving DecidableEq

/-- `cosigner::SignRequest`: the spend transaction to co-sign. -/
structure cosigner.SignRequest where
  tx : Transaction
deriving DecidableEq

/-- `cosigner::SignResult`: the cosigning server's signatures. -/
structure cosigner.SignResult where
  signatures : List Signature
deriving DecidableEq

def watchtower.Sig.toJson (p : watchtower.Sig) : Json :=
  Json.obj [("signatures", sigMapToJson p.signatures), ("txid", p.txid.toJson),
    ("deposit_outpoint", p.deposit_outpoint.toJson)]

def watchtower.Sig.fromJson : Json → Option watchtower.Sig
  | Json.obj ms =>
    (getField ms "signatures").bind fun sj =>
    (sigMapFromJson sj).bind fun sigs =>
    (getField ms "txid").bind fun tj =>
    (Txid.fromJson tj).bind fun tx =>
    (getField ms "deposit_outpoint").bind fun oj =>
    (OutPoint.fromJson oj).map fun op =>
    ⟨sigs, tx, op⟩
  | _ => none

def watchtower.SigResult.toJson (p : watchtower.SigResult) : Json :=
  Json.obj [("ack", Json.bool p.ack), ("txid", p.txid.toJson)]

def watchtower.SigResult.fromJson : Json → Option watchtower.SigResult
  | Json.obj ms =>
    (getField ms "ack").bind fun aj =>
    aj.asBool.bind fun a =>
    (getField ms "txid").bind fun tj =>
    (Txid.fromJson tj).map fun tx =>
    ⟨a, tx⟩
  | _ => none

def coordinator.GetSigs.toJson (p : coordinator.GetSigs) : Json :=
  Json.obj [("id", p.id.toJson)]

def coordinator.GetSigs.fromJson : Json → Option coordinator.GetSigs
  | Json.obj ms =>
    (getField ms "id").bind fun tj =>
    (Txid.fromJson tj).map fun tx =>
    ⟨tx⟩
  | _ => none

def coordinator.Sigs.toJson (p : coordinator.Sigs) : Json :=
  Json.obj [("signatures", sigMapToJson p.signatures)]

def coordinator.Sigs.fromJson : Json → Option coordinator.Sigs
  | Json.obj ms =>
    (getField ms "signatures").bind fun sj =>
    (sigMapFromJson sj).map fun sigs =>
    ⟨sigs⟩
  | _ => none

def coordinator.SetSpendTx.toJson (p : coordinator.SetSpendTx) : Json :=
  Json.obj [("deposit_outpoints", outPointListToJson p.deposit_outpoints),
    ("transaction", Json.str (serializeTxHex p.transaction))]

def coordinator.SetSpendTx.fromJson : Json → Option coordinator.SetSpendTx
  | Json.obj ms =>
    (getField ms "deposit_outpoints").bind fun oj =>
    (outPointListFromJson oj).bind fun ops =>
    (getField ms "transaction").bind fun tj =>
    (serdeTxHexFromJson tj).map fun tx =>
    ⟨ops, tx⟩
  | _ => none

def coordinator.SetSpendResult.toJson (p : coordinator.SetSpendResult) : Json :=
  Json.obj [("ack", Json.bool p.ack)]

def coordinator.SetSpendResult.fromJson : Json → Option coordinator.SetSpendResult
  | Json.obj ms =>
    (getField ms "ack").bind fun aj =>
    aj.asBool.map fun a =>
    ⟨a⟩
  | _ => none

def coordinator.GetSpendTx.toJson (p : coordinator.GetSpendTx) : Json :=
  Json.obj [("deposit_outpoint", p.deposit_outpoint.toJson)]

def coordinator.GetSpendTx.fromJson : Json → Option coordinator.GetSpendTx
  | Json.obj ms =>
    (getField ms "deposit_outpoint").bind fun oj =>
    (OutPoint.fromJson oj).map fun op =>
    ⟨op⟩
  | _ => none

def coordinator.SpendTx.toJson (p : coordinator.SpendTx) : Json :=
  Json.obj [("transaction", Json.str (serializeTxHex p.transaction))]

def coordinator.SpendTx.fromJson : Json → Option coordinator.SpendTx
  | Json.obj ms =>
    (getField ms "transaction").bind fun tj =>
    (serdeTxHexFromJson tj).map fun tx =>
    ⟨tx⟩
  | _ => none

def coordinator.Sig.toJson (p : coordinator.Sig) : Json :=
  Json.obj [("pubkey", p.pubkey.toJson), ("signature", p.signature.toJson),
    ("id", p.id.toJson)]

def coordinator.Sig.fromJson : Json → Option coordinator.Sig
  | Json.obj ms =>
    (getField ms "pubkey").bind fun pj =>
    (PublicKey.fromJson pj).bind fun pk =>
    (getField ms "signature").bind fun sj =>
    (Signature.fromJson sj).bind fun sg =>
    (getField ms "id").bind fun tj =>
    (Txid.fromJson tj).map fun tx =>
    ⟨pk, sg, tx⟩
  | _ => none

def coordinator.SigResult.toJson (p : coordinator.SigResult) : Json :=
  Json.obj [("ack", Json.bool p.ack)]

def coordinator.SigResult.fromJson : Json → Option coordinator.SigResult
  | Json.obj ms =>
    (getField ms "ack").bind fun aj =>
    aj.asBool.map fun a =>
    ⟨a⟩
  | _ => none

def cosigner.SignRequest.toJson (p : cosigner.SignRequest) : Json :=
  Json.obj [("tx", Json.str (serializeTxHex p.tx))]

def cosigner.SignRequest.fromJson : Json → Option cosigner.SignRequest
  | Json.obj ms =>
    (getField ms "tx").bind fun tj =>
    (serdeTxHexFromJson tj).map fun tx =>
    ⟨tx⟩
  | _ => none

def cosigner.SignResult.toJson (p : cosigner.SignResult) : Json :=
  Json.obj [("signatures", sigListToJson p.signatures)]

def cosigner.SignResult.fromJson : Json → Option cosigner.SignResult
  | Json.obj ms =>
    (getField ms "signatures").bind fun sj =>
    (sigListFromJson sj).map fun sigs =>
    ⟨sigs⟩
  | _ => none

/-! ## Record well-formedness and record-level round-trips -/

/-- Well-formed `watchtower::Sig` value. -/
def WfWtSig (p : watchtower.Sig) : Prop :=
  WfSigMap p.signatures ∧ WfTxid p.txid ∧ WfOutPoint p.deposit_outpoint

/-- Well-formed `watchtower::SigResult` value. -/
def WfWtSigResult (p : watchtower.SigResult) : Prop := WfTxid p.txid

/-- Well-formed `coordinator::GetSigs` value. -/
def WfGetSigs (p : coordinator.GetSigs) : Prop := WfTxid p.id

/-- Well-formed `coordinator::Sigs` value. -/
def WfSigs (p : coordinator.Sigs) : Prop := WfSigMap p.signatures

/-- Well-formed `coordinator::SetSpendTx` value. -/
def WfSetSpendTx (p : coordinator.SetSpendTx) : Prop :=
  (∀ o ∈ p.deposit_outpoints, WfOutPoint o) ∧ WfTx p.transaction

/-- Well-formed `coordinator::GetSpendTx` value. -/
def WfGetSpendTx (p : coordinator.GetSpendTx) : Prop := WfOutPoint p.deposit_outpoint

/-- Well-formed `coordinator::SpendTx` value. -/
def WfSpendTx (p : coordinator.SpendTx) : Prop := WfTx p.transaction

/-- Well-formed `coordinator::Sig` value. -/
def WfCoordSig (p : coordinator.Sig) : Prop :=
  WfPk p.pubkey ∧ WfSigVal p.signature ∧ WfTxid p.id

/-- Well-formed `cosigner::SignRequest` value. -/
def WfSignRequest (p : cosigner.SignRequest) : Prop := WfTx p.tx

/-- Well-formed `cosigner::SignResult` value. -/
def WfSignResult (p : cosigner.SignResult) : Prop := ∀ s ∈ p.signatures, WfSigVal s

instance : DecidablePred WfWtSig := fun p => by unfold WfWtSig; infer_instance

instance : DecidablePred WfWtSigResult := fun p => by unfold WfWtSigResult; infer_instance

instance : DecidablePred WfGetSigs := fun p => by unfold WfGetSigs; infer_instance

instance : DecidablePred WfSigs := fun p => by unfold WfSigs; infer_instance

instance : DecidablePred WfSetSpendTx := fun p => by unfold WfSetSpendTx; infer_instance

instance : DecidablePred WfGetSpendTx := fun p => by unfold WfGetSpendTx; infer_instance

instance : DecidablePred WfSpendTx := fun p => by unfold WfSpendTx; infer_instance

instance : DecidablePred WfCoordSig := fun p => by unfold WfCoordSig; infer_instance

instance : DecidablePred WfSignRequest := fun p => by unfold WfSignRequest; infer_instance

instance : DecidablePred WfSignResult := fun p => by unfold WfSignResult; infer_instance

theorem wtSig_fromJson_toJson {p : watchtower.Sig} (h : WfWtSig p) :
    watchtower.Sig.fromJson p.toJson = some p := by
  obtain ⟨sigs, tx, op⟩ := p
  obtain ⟨h1, h2, h3⟩ := h
  simp [watchtower.Sig.toJson, watchtower.Sig.fromJson, getField,
    sigMapFromJson_toJson h1, txid_fromJson_toJson h2, outpoint_fromJson_toJson h3]

theorem wtSigResult_fromJson_toJson {p : watchtower.SigResult} (h : WfWtSigResult p) :
    watchtower.SigResult.fromJson p.toJson = some p := by
  obtain ⟨a, tx⟩ := p
  simp [watchtower.SigResult.toJson, watchtower.SigResult.fromJson, getField,
    Json.asBool, txid_fromJson_toJson h]

theorem getSigs_fromJson_toJson {p : coordinator.GetSigs} (h : WfGetSigs p) :
    coordinator.GetSigs.fromJson p.toJson = some p := by
  obtain ⟨tx⟩ := p
  simp [coordinator.GetSigs.toJson, coordinator.GetSigs.fromJson, getField,
    txid_fromJson_toJson h]

theorem sigs_fromJson_toJson {p : coordinator.Sigs} (h : WfSigs p) :
    coordinator.Sigs.fromJson p.toJson = some p := by
  obtain ⟨sigs⟩ := p
  simp [coordinator.Sigs.toJson, coordinator.Sigs.fromJson, getField,
    sigMapFromJson_toJson h]

theorem setSpendTx_fromJson_toJson {p : coordinator.SetSpendTx} (h : WfSetSpendTx p) :
    coordinator.SetSpendTx.fromJson p.toJson = some p := by
  obtain ⟨ops, tx⟩ := p
  obtain ⟨h1, h2⟩ := h
  simp [coordinator.SetSpendTx.toJson, coordinator.SetSpendTx.fromJson, getField,
    outPointList_roundtrip h1, serdeTxHex_roundtrip h2]

theorem setSpendResult_fromJson_toJson (p : coordinator.SetSpendResult) :
    coordinator.SetSpendResult.fromJson p.toJson = some p := by
  obtain ⟨a⟩ := p
  simp [coordinator.SetSpendResult.toJson, coordinator.SetSpendResult.fromJson, getField,
    Json.asBool]

theorem getSpendTx_fromJson_toJson {p : coordinator.GetSpendTx} (h : WfGetSpendTx p) :
    coordinator.GetSpendTx.fromJson p.toJson = some p := by
  obtain ⟨op⟩ := p
  simp [coordinator.GetSpendTx.toJson, coordinator.GetSpendTx.fromJson, getField,
    outpoint_fromJson_toJson h]

theorem spendTx_fromJson_toJson {p : coordinator.SpendTx} (h : WfSpendTx p) :
    coordinator.SpendTx.fromJson p.toJson = some p := by
  obtain ⟨tx⟩ := p
  simp [coordinator.SpendTx.toJson, coordinator.SpendTx.fromJson, getField,
    serdeTxHex_roundtrip h]

theorem coordSig_fromJson_toJson {p : coordinator.Sig} (h : WfCoordSig p) :
    coordinator.Sig.fromJson p.toJson = some p := by
  obtain ⟨pk, sg, tx⟩ := p
  obtain ⟨h1, h2, h3⟩ := h
  simp [coordinator.Sig.toJson, coordinator.Sig.fromJson, getField,
    pk_fromJson_toJson h1, sig_fromJson_toJson h2, txid_fromJson_toJson h3]

theorem coordSigResult_fromJson_toJson (p : coordinator.SigResult) :
    coordinator.SigResult.fromJson p.toJson = some p := by
  obtain ⟨a⟩ := p
  simp [coordinator.SigResult.toJson, coordinator.SigResult.fromJson, getField,
    Json.asBool]

theorem signRequest_fromJson_toJson {p : cosigner.SignRequest} (h : WfSignRequest p) :
    cosigner.SignRequest.fromJson p.toJson = some p := by
  obtain ⟨tx⟩ := p
  simp [cosigner.SignRequest.toJson, cosigner.SignRequest.fromJson, getField,
    serdeTxHex_roundtrip h]

theorem signResult_fromJson_toJson {p : cosigner.SignResult} (h : WfSignResult p) :
    cosigner.SignResult.fromJson p.toJson = some p := by
  obtain ⟨sigs⟩ := p
  simp [cosigner.SignResult.toJson, cosigner.SignResult.fromJson, getField,
    sigList_roundtrip h]

/-! ## The untagged `Request` envelope

`#[serde(untagged)]`: decoding buffers the value and tries each variant
in declaration order, keeping the first that deserializes; the `method`
string is an ordinary `&str` field, not a checked discriminant. -/

/-- The `Request` union, one struct variant per request kind, in the
source's declaration order. -/
inductive Request where
  | wtSig (method : String) (params : watchtower.Sig) (id : Nat)
  | setSpendTx (method : String) (params : coordinator.SetSpendTx) (id : Nat)
  | getSpendTx (method : String) (params : coordinator.GetSpendTx) (id : Nat)
  | coordSig (method : String) (params : coordinator.Sig) (id : Nat)
  | getSigs (method : String) (params : coordinator.GetSigs) (id : Nat)
  | sign (method : String) (params : cosigner.SignRequest) (id : Nat)
deriving DecidableEq

/-- The `RequestParams` union returned by `Request::params()`. -/
inductive RequestParams where
  | wtSig (p : watchtower.Sig)
  | setSpendTx (p : coordinator.SetSpendTx)
  | getSpendTx (p : coordinator.GetSpendTx)
  | coordSig (p : coordinator.Sig)
  | getSigs (p : coordinator.GetSigs)
  | sign (p : cosigner.SignRequest)
deriving DecidableEq

/-- `Request::params()`. -/
def Request.params : Request → RequestParams
  | .wtSig _ p _ => .wtSig p
  | .setSpendTx _ p _ => .setSpendTx p
  | .getSpendTx _ p _ => .getSpendTx p
  | .coordSig _ p _ => .coordSig p
  | .getSigs _ p _ => .getSigs p
  | .sign _ p _ => .sign p

/-- `Request::id()`. -/
def Request.id : Request → Nat
  | .wtSig _ _ i => i
  | .setSpendTx _ _ i => i
  | .getSpendTx _ _ i => i
  | .coordSig _ _ i => i
  | .getSigs _ _ i => i
  | .sign _ _ i => i

/-- The `method` field of a request. -/
def Request.method : Request → String
  | .wtSig m _ _ => m
  | .setSpendTx m _ _ => m
  | .getSpendTx m _ _ => m
  | .coordSig m _ _ => m
  | .getSigs m _ _ => m
  | .sign m _ _ => m

/-- Serialize a request: `{"method":…,"params":…,"id":…}` with the
variant's parameter record. -/
def encodeRequest : Request → Json
  | .wtSig m p i =>
    Json.obj [("method", Json.str m), ("params", p.toJson), ("id", Json.num i)]
  | .setSpendTx m p i =>
    Json.obj [("method", Json.str m), ("params", p.toJson), ("id", Json.num i)]
  | .getSpendTx m p i =>
    Json.obj [("method", Json.str m), ("params", p.toJson), ("id", Json.num i)]
  | .coordSig m p i =>
    Json.obj [("method", Json.str m), ("params", p.toJson), ("id", Json.num i)]
  | .getSigs m p i =>
    Json.obj [("method", Json.str m), ("params", p.toJson), ("id", Json.num i)]
  | .sign m p i =>
    Json.obj [("method", Json.str m), ("params", p.toJson), ("id", Json.num i)]

/-- Decode one struct variant's envelope: `method` must be a string,
`params` must decode as that variant's record, `id` must be a `u32`. -/
def decodeEnvelope {π : Type} (decParams : Json → Option π) : Json → Option (String × π × Nat)
  | Json.obj ms =>
    (getField ms "method").bind fun mj =>
    mj.asStr.bind fun m =>
    (getField ms "params").bind fun pj =>
    (decParams pj).bind fun p =>
    (getField ms "id").bind fun ij =>
    ij.asU32.map fun i =>
    (m, p, i)
  | _ => none

/-- First-success choice, serde's untagged dispatch combinator. -/
def orElseO {α : Type} : Option α → Option α → Option α
  | some x, _ => some x
  | none, b => b

/-- Deserialize a request: try the six variants in declaration order,
keep the first structural match. -/
def decodeRequest (j : Json) : Option Request :=
  orElseO ((decodeEnvelope watchtower.Sig.fromJson j).map fun x =>
    Request.wtSig x.1 x.2.1 x.2.2)
  (orElseO ((decodeEnvelope coordinator.SetSpendTx.fromJson j).map fun x =>
    Request.setSpendTx x.1 x.2.1 x.2.2)
  (orElseO ((decodeEnvelope coordinator.GetSpendTx.fromJson j).map fun x =>
    Request.getSpendTx x.1 x.2.1 x.2.2)
  (orElseO ((decodeEnvelope coordinator.Sig.fromJson j).map fun x =>
    Request.coordSig x.1 x.2.1 x.2.2)
  (orElseO ((decodeEnvelope coordinator.GetSigs.fromJson j).map fun x =>
    Request.getSigs x.1 x.2.1 x.2.2)
  ((decodeEnvelope cosigner.SignRequest.fromJson j).map fun x =>
    Request.sign x.1 x.2.1 x.2.2)))))

/-- Modelled from the spec: the cryptographically secure random source
for 32-bit unsigned integers (`sodiumoxide::randombytes::randombytes_uniform`),
documented to return a uniformly distributed value in `[0, upper_bound)`;
the underlying draw is abstracted by the `entropy` argument. -/
def randombytesUniform (upper entropy : Nat) : Nat := entropy % upper

/-- The id synthesized by the `impl_to_request!` conversions:
`randombytes_uniform(u32::MAX)`. -/
def requestIdFromEntropy (entropy : Nat) : Nat :=
  randombytesUniform (2 ^ 32 - 1) entropy

/-- The six `From<params>` conversions generated by `impl_to_request!`,
with their method-string constants. -/
def requestFrom (p : RequestParams) (entropy : Nat) : Request :=
  match p with
  | .wtSig q => .wtSig "sig" q (requestIdFromEntropy entropy)
  | .setSpendTx q => .setSpendTx "set_spend_tx" q (requestIdFromEntropy entropy)
  | .getSpendTx q => .getSpendTx "get_spend_tx" q (requestIdFromEntropy entropy)
  | .coordSig q => .coordSig "sig" q (requestIdFromEntropy entropy)
  | .getSigs q => .getSigs "get_sigs" q (requestIdFromEntropy entropy)
  | .sign q => .sign "sign" q (requestIdFromEntropy entropy)

/-- The method-string constant attached to each params kind. -/
def methodOf (p : RequestParams) : String := (requestFrom p 0).method

/-- Pointwise well-formedness of a params record. -/
def WfRequestParams : RequestParams → Prop
  | .wtSig p => WfWtSig p
  | .setSpendTx p => WfSetSpendTx p
  | .getSpendTx p => WfGetSpendTx p
  | .coordSig p => WfCoordSig p
  | .getSigs p => WfGetSigs p
  | .sign p => WfSignRequest p

instance : DecidablePred WfRequestParams := fun p =>
  match p with
  | .wtSig q => inferInstanceAs (Decidable (WfWtSig q))
  | .setSpendTx q => inferInstanceAs (Decidable (WfSetSpendTx q))
  | .getSpendTx q => inferInstanceAs (Decidable (WfGetSpendTx q))
  | .coordSig q => inferInstanceAs (Decidable (WfCoordSig q))
  | .getSigs q => inferInstanceAs (Decidable (WfGetSigs q))
  | .sign q => inferInstanceAs (Decidable (WfSignRequest q))

/-- The serialized params object of a params record. -/
def paramsToJson : RequestParams → Json
  | .wtSig p => p.toJson
  | .setSpendTx p => p.toJson
  | .getSpendTx p => p.toJson
  | .coordSig p => p.toJson
  | .getSigs p => p.toJson
  | .sign p => p.toJson

/-- Build the request variant of a params kind with a given method
string and id. -/
def mkRequest (m : String) (p : RequestParams) (i : Nat) : Request :=
  match p with
  | .wtSig q => .wtSig m q i
  | .setSpendTx q => .setSpendTx m q i
  | .getSpendTx q => .getSpendTx m q i
  | .coordSig q => .coordSig m q i
  | .getSigs q => .getSigs m q i
  | .sign q => .sign m q i

/-! ## `Response` and `ResponseResult` -/

/-- The `ResponseResult` union, in the source's declaration order. -/
inductive ResponseResult where
  | wtSig (r : watchtower.SigResult)
  | sigs (r : coordinator.Sigs)
  | sig (r : coordinator.SigResult)
  | setSpend (r : coordinator.SetSpendResult)
  | spendTx (r : coordinator.SpendTx)
  | signResult (r : cosigner.SignResult)
deriving DecidableEq

/-- Serialize a response result (untagged: just the record). -/
def ResponseResult.toJson : ResponseResult → Json
  | .wtSig r => r.toJson
  | .sigs r => r.toJson
  | .sig r => r.toJson
  | .setSpend r => r.toJson
  | .spendTx r => r.toJson
  | .signResult r => r.toJson

/-- Deserialize a response result: first variant that matches, in
declaration order. -/
def ResponseResult.fromJson (j : Json) : Option ResponseResult :=
  orElseO ((watchtower.SigResult.fromJson j).map ResponseResult.wtSig)
  (orElseO ((coordinator.Sigs.fromJson j).map ResponseResult.sigs)
  (orElseO ((coordinator.SigResult.fromJson j).map ResponseResult.sig)
  (orElseO ((coordinator.SetSpendResult.fromJson j).map ResponseResult.setSpend)
  (orElseO ((coordinator.SpendTx.fromJson j).map ResponseResult.spendTx)
  ((cosigner.SignResult.fromJson j).map ResponseResult.signResult)))))

/-- The generic `Response<T>` envelope. -/
structure Response (T : Type) where
  result : T
  id : Nat
deriving DecidableEq

/-- Serialize a response: `{"result":…,"id":…}`. -/
def encodeResponseWith {T : Type} (enc : T → Json) (r : Response T) : Json :=
  Json.obj [("result", enc r.result), ("id", Json.num r.id)]

/-- Deserialize a response for a caller-chosen result decoder. -/
def decodeResponseWith {T : Type} (dec : Json → Option T) : Json → Option (Response T)
  | Json.obj ms =>
    (getField ms "result").bind fun rj =>
    (dec rj).bind fun res =>
    (getField ms "id").bind fun ij =>
    ij.asU32.map fun i =>
    ⟨res, i⟩
  | _ => none

/-- `Response<ResponseResult>` serialization. -/
def encodeResponse : Response ResponseResult → Json :=
  encodeResponseWith ResponseResult.toJson

/-- `Response<ResponseResult>` deserialization. -/
def decodeResponse : Json → Option (Response ResponseResult) :=
  decodeResponseWith ResponseResult.fromJson

/-- Pointwise well-formedness of a response result record. -/
def WfResponseResult : ResponseResult → Prop
  | .wtSig r => WfWtSigResult r
  | .sigs r => WfSigs r
  | .sig _ => True
  | .setSpend _ => True
  | .spendTx r => WfSpendTx r
  | .signResult r => WfSignResult r

instance : DecidablePred WfResponseResult := fun r =>
  match r with
  | .wtSig q => inferInstanceAs (Decidable (WfWtSigResult q))
  | .sigs q => inferInstanceAs (Decidable (WfSigs q))
  | .sig _ => inferInstanceAs (Decidable True)
  | .setSpend _ => inferInstanceAs (Decidable True)
  | .spendTx q => inferInstanceAs (Decidable (WfSpendTx q))
  | .signResult q => inferInstanceAs (Decidable (WfSignResult q))

/-! ## `SetSpendTx` construction from a spend transaction -/

/-- Modelled from the spec: the external `revault_tx::SpendTransaction`,
a partially signed spend transaction; its `is_finalized` predicate and
the raw transaction its PSBT extracts are opaque interfaces, modelled
as fields. -/
structure SpendTransaction where
  psbtTx : Transaction
  finalized : Bool
deriving DecidableEq

/-- `SpendTransaction::is_finalized`. -/
def SpendTransaction.is_finalized (s : SpendTransaction) : Bool := s.finalized

/-- `into_psbt().extract_tx()`. -/
def SpendTransaction.extractTx (s : SpendTransaction) : Transaction := s.psbtTx

/-- `SetSpendTx::from_spend_tx`: the `assert!(tx.is_finalized())` abort
is modelled as `none`; on success the extracted raw transaction and the
given outpoints are stored. -/
def coordinator.SetSpendTx.from_spend_tx (deposit_outpoints : List OutPoint)
    (tx : SpendTransaction) : Option coordinator.SetSpendTx :=
  if tx.is_finalized then some ⟨deposit_outpoints, tx.extractTx⟩ else none

/-- `SetSpendTx::spend_tx`: recover the raw transaction. -/
def coordinator.SetSpendTx.spend_tx (p : coordinator.SetSpendTx) : Transaction :=
  p.transaction

/-! ## Decode lemmas for the untagged envelopes -/

theorem bind_none {α β : Type} {x : Option α} {f : α → Option β} (h : ∀ a, f a = none) :
    x.bind f = none := by cases x <;> simp [h]

theorem decodeEnvelope_obj_some {π : Type} (dec : Json → Option π) (m : String)
    (P : Json) (i : Nat) {v : π} (hdec : dec P = some v) (hi : i < 2 ^ 32) :
    decodeEnvelope dec (Json.obj [("method", Json.str m), ("params", P),
      ("id", Json.num i)]) = some (m, v, i) := by
  simp [decodeEnvelope, getField, Json.asStr, Json.asU32, hdec, hi]
  omega

theorem decodeEnvelope_obj_none {π : Type} (dec : Json → Option π) (m : String)
    (P : Json) (i : Nat) (hdec : dec P = none) :
    decodeEnvelope dec (Json.obj [("method", Json.str m), ("params", P),
      ("id", Json.num i)]) = none := by
  simp [decodeEnvelope, getField, Json.asStr, hdec]

/-- The untagged request decoder on a canonical envelope: earlier
variants fail on the missing fields of their record shapes, the params
kind's own variant decodes, whatever the `method` string says. -/
theorem decodeRequest_encodedParams {m : String} {p : RequestParams} {i : Nat}
    (h : WfRequestParams p) (hi : i < 2 ^ 32) :
    decodeRequest (Json.obj [("method", Json.str m), ("params", paramsToJson p),
      ("id", Json.num i)]) = some (mkRequest m p i) := by
  cases p with
  | wtSig q =>
    simp only [paramsToJson, mkRequest, decodeRequest]
    rw [decodeEnvelope_obj_some watchtower.Sig.fromJson m _ i
      (wtSig_fromJson_toJson h) hi]
    rfl
  | setSpendTx q =>
    simp only [paramsToJson, mkRequest, decodeRequest]
    rw [decodeEnvelope_obj_none watchtower.Sig.fromJson m
        (coordinator.SetSpendTx.toJson q) i rfl,
      decodeEnvelope_obj_some coordinator.SetSpendTx.fromJson m
        (coordinator.SetSpendTx.toJson q) i (setSpendTx_fromJson_toJson h) hi]
    rfl
  | getSpendTx q =>
    simp only [paramsToJson, mkRequest, decodeRequest]
    rw [decodeEnvelope_obj_none watchtower.Sig.fromJson m
        (coordinator.GetSpendTx.toJson q) i rfl,
      decodeEnvelope_obj_none coordinator.SetSpendTx.fromJson m
        (coordinator.GetSpendTx.toJson q) i rfl,
      decodeEnvelope_obj_some coordinator.GetSpendTx.fromJson m
        (coordinator.GetSpendTx.toJson q) i (getSpendTx_fromJson_toJson h) hi]
    rfl
  | coordSig q =>
    simp only [paramsToJson, mkRequest, decodeRequest]
    rw [decodeEnvelope_obj_none watchtower.Sig.fromJson m
        (coordinator.Sig.toJson q) i rfl,
      decodeEnvelope_obj_none coordinator.SetSpendTx.fromJson m
        (coordinator.Sig.toJson q) i rfl,
      decodeEnvelope_obj_none coordinator.GetSpendTx.fromJson m
        (coordinator.Sig.toJson q) i rfl,
      decodeEnvelope_obj_some coordinator.Sig.fromJson m
        (coordinator.Sig.toJson q) i (coordSig_fromJson_toJson h) hi]
    rfl
  | getSigs q =>
    simp only [paramsToJson, mkRequest, decodeRequest]
    rw [decodeEnvelope_obj_none watchtower.Sig.fromJson m
        (coordinator.GetSigs.toJson q) i rfl,
      decodeEnvelope_obj_none coordinator.SetSpendTx.fromJson m
        (coordinator.GetSigs.toJson q) i rfl,
      decodeEnvelope_obj_none coordinator.GetSpendTx.fromJson m
        (coordinator.GetSigs.toJson q) i rfl,
      decodeEnvelope_obj_none coordinator.Sig.fromJson m
        (coordinator.GetSigs.toJson q) i rfl,
      decodeEnvelope_obj_some coordinator.GetSigs.fromJson m
        (coordinator.GetSigs.toJson q) i (getSigs_fromJson_toJson h) hi]
    rfl
  | sign q =>
    simp only [paramsToJson, mkRequest, decodeRequest]
    rw [decodeEnvelope_obj_none watchtower.Sig.fromJson m
        (cosigner.SignRequest.toJson q) i rfl,
      decodeEnvelope_obj_none coordinator.SetSpendTx.fromJson m
        (cosigner.SignRequest.toJson q) i rfl,
      decodeEnvelope_obj_none coordinator.GetSpendTx.fromJson m
        (cosigner.SignRequest.toJson q) i rfl,
      decodeEnvelope_obj_none coordinator.Sig.fromJson m
        (cosigner.SignRequest.toJson q) i rfl,
      decodeEnvelope_obj_none coordinator.GetSigs.fromJson m
        (cosigner.SignRequest.toJson q) i rfl,
      decodeEnvelope_obj_some cosigner.SignRequest.fromJson m
        (cosigner.SignRequest.toJson q) i (signRequest_fromJson_toJson h) hi]
    rfl

theorem decodeEnvelope_paramsFail {π : Type} {dec : Json → Option π}
    {ms : List (String × Json)}
    (h : ∀ pj, getField ms "params" = some pj → dec pj = none) :
    decodeEnvelope dec (Json.obj ms) = none := by
  simp only [decodeEnvelope]
  cases hm : getField ms "method" with
  | none => rfl
  | some mj =>
    simp only [Option.some_bind]
    cases hs : mj.asStr with
    | none => rfl
    | some m =>
      simp only [Option.some_bind]
      cases hp : getField ms "params" with
      | none => rfl
      | some pj =>
        simp only [Option.some_bind, h pj hp]
        rfl

theorem decodeEnvelope_paramsVal {π : Type} {dec : Json → Option π}
    {ms : List (String × Json)} {pj : Json}
    (hpf : getField ms "params" = some pj) (hdec : dec pj = none) :
    decodeEnvelope dec (Json.obj ms) = none :=
  decodeEnvelope_paramsFail fun pj' hpj' => by
    rw [hpf] at hpj'
    cases hpj'
    exact hdec

theorem decodeRequest_noParams {ms : List (String × Json)}
    (hpf : getField ms "params" = none) :
    decodeRequest (Json.obj ms) = none := by
  have hall : ∀ {π : Type} (dec : Json → Option π),
      decodeEnvelope dec (Json.obj ms) = none :=
    fun dec => decodeEnvelope_paramsFail fun pj hpj => by rw [hpf] at hpj; cases hpj
  simp [decodeRequest, hall, orElseO]

theorem decodeRequest_allFail {ms : List (String × Json)} {pj : Json}
    (hpf : getField ms "params" = some pj)
    (e1 : watchtower.Sig.fromJson pj = none)
    (e2 : coordinator.SetSpendTx.fromJson pj = none)
    (e3 : coordinator.GetSpendTx.fromJson pj = none)
    (e4 : coordinator.Sig.fromJson pj = none)
    (e5 : coordinator.GetSigs.fromJson pj = none)
    (e6 : cosigner.SignRequest.fromJson pj = none) :
    decodeRequest (Json.obj ms) = none := by
  simp [decodeRequest, decodeEnvelope_paramsVal hpf e1, decodeEnvelope_paramsVal hpf e2,
    decodeEnvelope_paramsVal hpf e3, decodeEnvelope_paramsVal hpf e4,
    decodeEnvelope_paramsVal hpf e5, decodeEnvelope_paramsVal hpf e6, orElseO]

theorem wtSig_fromJson_missing {pms : List (String × Json)}
    (h : "signatures" ∉ pms.map Prod.fst ∨ "txid" ∉ pms.map Prod.fst ∨
      "deposit_outpoint" ∉ pms.map Prod.fst) :
    watchtower.Sig.fromJson (Json.obj pms) = none := by
  simp only [watchtower.Sig.fromJson]
  rcases h with h | h | h
  · rw [getField_not_mem h]
    rfl
  · refine bind_none fun sj => bind_none fun sigs => ?_
    rw [getField_not_mem h]
    rfl
  · refine bind_none fun sj => bind_none fun sigs => bind_none fun tj =>
      bind_none fun tx => ?_
    rw [getField_not_mem h]
    rfl

theorem setSpendTx_fromJson_missing {pms : List (String × Json)}
    (h : "deposit_outpoints" ∉ pms.map Prod.fst ∨ "transaction" ∉ pms.map Prod.fst) :
    coordinator.SetSpendTx.fromJson (Json.obj pms) = none := by
  simp only [coordinator.SetSpendTx.fromJson]
  rcases h with h | h
  · rw [getField_not_mem h]
    rfl
  · refine bind_none fun oj => bind_none fun ops => ?_
    rw [getField_not_mem h]
    rfl

theorem getSpendTx_fromJson_missing {pms : List (String × Json)}
    (h : "deposit_outpoint" ∉ pms.map Prod.fst) :
    coordinator.GetSpendTx.fromJson (Json.obj pms) = none := by
  simp only [coordinator.GetSpendTx.fromJson]
  rw [getField_not_mem h]
  rfl

theorem coordSig_fromJson_missing {pms : List (String × Json)}
    (h : "pubkey" ∉ pms.map Prod.fst ∨ "signature" ∉ pms.map Prod.fst ∨
      "id" ∉ pms.map Prod.fst) :
    coordinator.Sig.fromJson (Json.obj pms) = none := by
  simp only [coordinator.Sig.fromJson]
  rcases h with h | h | h
  · rw [getField_not_mem h]
    rfl
  · refine bind_none fun pj => bind_none fun pk => ?_
    rw [getField_not_mem h]
    rfl
  · refine bind_none fun pj => bind_none fun pk => bind_none fun sj =>
      bind_none fun sg => ?_
    rw [getField_not_mem h]
    rfl

theorem getSigs_fromJson_missing {pms : List (String × Json)}
    (h : "id" ∉ pms.map Prod.fst) :
    coordinator.GetSigs.fromJson (Json.obj pms) = none := by
  simp only [coordinator.GetSigs.fromJson]
  rw [getField_not_mem h]
  rfl

theorem signRequest_fromJson_missing {pms : List (String × Json)}
    (h : "tx" ∉ pms.map Prod.fst) :
    cosigner.SignRequest.fromJson (Json.obj pms) = none := by
  simp only [cosigner.SignRequest.fromJson]
  rw [getField_not_mem h]
  rfl

/-- The untagged result decoder recovers every non-`SetSpend` result
from its own encoding (the `SetSpend` shape is shadowed by `Sig`). -/
theorem responseResult_fromJson_toJson {R : ResponseResult} (hwf : WfResponseResult R)
    (hns : ∀ r, R ≠ ResponseResult.setSpend r) :
    ResponseResult.fromJson (ResponseResult.toJson R) = some R := by
  cases R with
  | wtSig r =>
    simp only [ResponseResult.toJson, ResponseResult.fromJson,
      wtSigResult_fromJson_toJson hwf]
    rfl
  | sigs r =>
    have e1 : watchtower.SigResult.fromJson (coordinator.Sigs.toJson r) = none := rfl
    simp only [ResponseResult.toJson, ResponseResult.fromJson, e1,
      sigs_fromJson_toJson hwf]
    rfl
  | sig r =>
    have e1 : watchtower.SigResult.fromJson (coordinator.SigResult.toJson r) = none := rfl
    have e2 : coordinator.Sigs.fromJson (coordinator.SigResult.toJson r) = none := rfl
    simp only [ResponseResult.toJson, ResponseResult.fromJson, e1, e2,
      coordSigResult_fromJson_toJson r]
    rfl
  | setSpend r => exact absurd rfl (hns r)
  | spendTx r =>
    have e1 : watchtower.SigResult.fromJson (coordinator.SpendTx.toJson r) = none := rfl
    have e2 : coordinator.Sigs.fromJson (coordinator.SpendTx.toJson r) = none := rfl
    have e3 : coordinator.SigResult.fromJson (coordinator.SpendTx.toJson r) = none := rfl
    have e4 : coordinator.SetSpendResult.fromJson (coordinator.SpendTx.toJson r) = none := rfl
    simp only [ResponseResult.toJson, ResponseResult.fromJson, e1, e2, e3, e4,
      spendTx_fromJson_toJson hwf]
    rfl
  | signResult r =>
    have e1 : watchtower.SigResult.fromJson (cosigner.SignResult.toJson r) = none := rfl
    have e2 : coordinator.Sigs.fromJson (cosigner.SignResult.toJson r) = none := rfl
    have e3 : coordinator.SigResult.fromJson (cosigner.SignResult.toJson r) = none := rfl
    have e4 : coordinator.SetSpendResult.fromJson (cosigner.SignResult.toJson r) = none := rfl
    have e5 : coordinator.SpendTx.fromJson (cosigner.SignResult.toJson r) = none := rfl
    simp only [ResponseResult.toJson, ResponseResult.fromJson, e1, e2, e3, e4, e5,
      signResult_fromJson_toJson hwf]
    rfl

theorem decodeResponse_encoded {R : ResponseResult} {i : Nat}
    (hR : ResponseResult.fromJson (ResponseResult.toJson R) = some R) (hi : i < 2 ^ 32) :
    decodeResponse (encodeResponse ⟨R, i⟩) = some ⟨R, i⟩ := by
  simp [decodeResponse, encodeResponse, decodeResponseWith, encodeResponseWith,
    getField, Json.asU32, hR, hi]
  omega

/-- Maps with the same bindings build the same `BTreeMap`. -/
theorem mapOfList_congr {l1 l2 : List (PublicKey × Signature)} (hp : l1.Perm l2)
    (hn : (l1.map Prod.fst).Nodup) : mapOfList l1 = mapOfList l2 := by
  have hn2 : (l2.map Prod.fst).Nodup := (hp.map Prod.fst).nodup hn
  exact eq_of_perm_of_sortedMap
    (((mapOfList_perm hn).trans hp).trans (mapOfList_perm hn2).symm)
    (mapOfList_sorted l1) (mapOfList_sorted l2)

theorem requestId_lt (e : Nat) : requestIdFromEntropy e < 2 ^ 32 - 1 :=
  Nat.mod_lt _ (by norm_num)

/-! ## Sample values -/

/-- An all-zero txid. -/
def txid0 : Txid := ⟨List.replicate 32 0⟩

/-- A sample deposit outpoint. -/
def op0 : OutPoint := ⟨txid0, 0⟩

/-- A sample compressed public key (33 bytes). -/
def pkA : PublicKey := ⟨2 :: List.replicate 32 0⟩

/-- A second, larger sample public key. -/
def pkB : PublicKey := ⟨3 :: List.replicate 32 0⟩

/-- A sample signature byte string. -/
def sigA : Signature := ⟨[48, 1, 2]⟩

/-- A minimal one-input transaction. -/
def tx1 : Transaction := ⟨2, [⟨List.replicate 32 0, 0, [], 0, []⟩], [], 0⟩

/-- A transaction with no inputs (serialized in BIP141 segwit form to
avoid serialization ambiguity). -/
def txNoInputs : Transaction := ⟨2, [], [], 0⟩

/-- A sample `watchtower::Sig` params record. -/
def wtP0 : watchtower.Sig := ⟨[], txid0, op0⟩

/-- A sample `coordinator::Sig` params record. -/
def coordP0 : coordinator.Sig := ⟨pkA, sigA, txid0⟩

/-- The field-name sets of the six request parameter shapes. -/
def catalogFieldSets : List (List String) :=
  [["signatures", "txid", "deposit_outpoint"],
   ["deposit_outpoints", "transaction"],
   ["deposit_outpoint"],
   ["pubkey", "signature", "id"],
   ["id"],
   ["tx"]]

/-- The field names of a params record's serialized object. -/
def paramsFieldNames (p : RequestParams) : List String :=
  match paramsToJson p with
  | Json.obj ms => ms.map Prod.fst
  | _ => []

/-- Does the text blob's `params` object carry a field of this name? -/
def hasParamsField (j : Json) (name : String) : Bool :=
  match j with
  | Json.obj ms =>
    match getField ms "params" with
    | some (Json.obj pms) => decide (name ∈ pms.map Prod.fst)
    | _ => false
  | _ => false

/-! ## The claims -/

/-- C1: for every structurally well-formed parameter record of the
six request kinds and every random draw, encoding the request built
from it and decoding the text back yields the original request
(well-formedness only states the field bounds the rust types impose:
one-byte list elements, `u32`/`u64` bounds, fixed hash lengths, the
`BTreeMap` ordering invariant). -/
theorem c1_request_round_trip (p : RequestParams) (e : Nat) (h : WfRequestParams p) :
    decodeRequest (encodeRequest (requestFrom p e)) = some (requestFrom p e) := by
  have hi : requestIdFromEntropy e < 2 ^ 32 := by
    have h1 := requestId_lt e
    have h2 : (2 : Nat) ^ 32 - 1 ≤ 2 ^ 32 := Nat.sub_le _ _
    omega
  cases p with
  | wtSig q =>
    show decodeRequest (Json.obj [("method", Json.str "sig"),
      ("params", paramsToJson (RequestParams.wtSig q)),
      ("id", Json.num (requestIdFromEntropy e))]) =
      some (mkRequest "sig" (RequestParams.wtSig q) (requestIdFromEntropy e))
    exact decodeRequest_encodedParams h hi
  | setSpendTx q =>
    show decodeRequest (Json.obj [("method", Json.str "set_spend_tx"),
      ("params", paramsToJson (RequestParams.setSpendTx q)),
      ("id", Json.num (requestIdFromEntropy e))]) =
      some (mkRequest "set_spend_tx" (RequestParams.setSpendTx q) (requestIdFromEntropy e))
    exact decodeRequest_encodedParams h hi
  | getSpendTx q =>
    show decodeRequest (Json.obj [("method", Json.str "get_spend_tx"),
      ("params", paramsToJson (RequestParams.getSpendTx q)),
      ("id", Json.num (requestIdFromEntropy e))]) =
      some (mkRequest "get_spend_tx" (RequestParams.getSpendTx q) (requestIdFromEntropy e))
    exact decodeRequest_encodedParams h hi
  | coordSig q =>
    show decodeRequest (Json.obj [("method", Json.str "sig"),
      ("params", paramsToJson (RequestParams.coordSig q)),
      ("id", Json.num (requestIdFromEntropy e))]) =
      some (mkRequest "sig" (RequestParams.coordSig q) (requestIdFromEntropy e))
    exact decodeRequest_encodedParams h hi
  | getSigs q =>
    show decodeRequest (Json.obj [("method", Json.str "get_sigs"),
      ("params", paramsToJson (RequestParams.getSigs q)),
      ("id", Json.num (requestIdFromEntropy e))]) =
      some (mkRequest "get_sigs" (RequestParams.getSigs q) (requestIdFromEntropy e))
    exact decodeRequest_encodedParams h hi
  | sign q =>
    show decodeRequest (Json.obj [("method", Json.str "sign"),
      ("params", paramsToJson (RequestParams.sign q)),
      ("id", Json.num (requestIdFromEntropy e))]) =
      some (mkRequest "sign" (RequestParams.sign q) (requestIdFromEntropy e))
    exact decodeRequest_encodedParams h hi

/-- C1 witness: the round-trip theorem applied to a concrete
`get_sigs` parameter record. -/
theorem c1_witness :
    WfRequestParams (RequestParams.getSigs ⟨txid0⟩) ∧
    decodeRequest (encodeRequest (requestFrom (RequestParams.getSigs ⟨txid0⟩) 5)) =
      some (requestFrom (RequestParams.getSigs ⟨txid0⟩) 5) :=
  ⟨by decide, c1_request_round_trip (RequestParams.getSigs ⟨txid0⟩) 5 (by decide)⟩

/-- C2 fails as stated: the watchtower `Sig` and coordinator `Sig`
request kinds are distinct variants of the union yet both carry the
method string `"sig"`. -/
theorem c2_counterexample :
    methodOf (RequestParams.wtSig wtP0) = methodOf (RequestParams.coordSig coordP0) ∧
    methodOf (RequestParams.wtSig wtP0) = "sig" ∧
    RequestParams.wtSig wtP0 ≠ RequestParams.coordSig coordP0 := by decide

/-- C2 (amended): the method table is
`sig, set_spend_tx, get_spend_tx, sig, get_sigs, sign` — unique except
for `"sig"`, shared by the two `Sig` kinds — while the six params
variants have pairwise distinct field-name sets. -/
theorem c2_method_table : ∀ (a : watchtower.Sig) (b : coordinator.SetSpendTx)
    (c : coordinator.GetSpendTx) (d : coordinator.Sig) (e : coordinator.GetSigs)
    (f : cosigner.SignRequest),
    [methodOf (RequestParams.wtSig a), methodOf (RequestParams.setSpendTx b),
      methodOf (RequestParams.getSpendTx c), methodOf (RequestParams.coordSig d),
      methodOf (RequestParams.getSigs e), methodOf (RequestParams.sign f)] =
      ["sig", "set_spend_tx", "get_spend_tx", "sig", "get_sigs", "sign"] ∧
    [paramsFieldNames (RequestParams.wtSig a), paramsFieldNames (RequestParams.setSpendTx b),
      paramsFieldNames (RequestParams.getSpendTx c), paramsFieldNames (RequestParams.coordSig d),
      paramsFieldNames (RequestParams.getSigs e),
      paramsFieldNames (RequestParams.sign f)].Pairwise (· ≠ ·) := by
  intro a b c d e f
  refine ⟨rfl, ?_⟩
  show ([["signatures", "txid", "deposit_outpoint"], ["deposit_outpoints", "transaction"],
    ["deposit_outpoint"], ["pubkey", "signature", "id"], ["id"], ["tx"]] :
    List (List String)).Pairwise (· ≠ ·)
  decide

/-- The set of possible synthesized request ids. -/
def idPossible (v : Nat) : Prop := ∃ e, requestIdFromEntropy e = v

/-- C3 fails as stated: `randombytes_uniform(u32::MAX)` draws from
`[0, u32::MAX)`, so the id `4294967295` is never synthesized. -/
theorem c3_counterexample : ¬ idPossible 4294967295 := by
  rintro ⟨e, he⟩
  have h1 := requestId_lt e
  have h2 : (2 : Nat) ^ 32 - 1 = 4294967295 := by norm_num
  omega

/-- C3 (amended): every `From<params>` conversion draws its id from
`[0, u32::MAX)`: the id always lies below `4294967295`, and every
value below `4294967295` is a possible id. -/
theorem c3_id_generation :
    (∀ (p : RequestParams) (e : Nat), (requestFrom p e).id = requestIdFromEntropy e ∧
      (requestFrom p e).id < 2 ^ 32 - 1) ∧
    (∀ v : Nat, v < 2 ^ 32 - 1 → idPossible v) := by
  constructor
  · intro p e
    refine ⟨?_, ?_⟩
    · cases p <;> rfl
    · cases p <;> exact requestId_lt e
  · intro v hv
    exact ⟨v, Nat.mod_eq_of_lt hv⟩

/-- C3 witness: 1946 is a possible id; a synthesized id is below
`u32::MAX`. -/
theorem c3_witness :
    idPossible 1946 ∧ (requestFrom (RequestParams.getSigs ⟨txid0⟩) 7).id < 2 ^ 32 - 1 :=
  ⟨c3_id_generation.2 1946 (by norm_num), (c3_id_generation.1 (RequestParams.getSigs ⟨txid0⟩) 7).2⟩

/-- C4: a key/signature map built from any insertion order serializes
with its members in ascending raw-key byte order; two maps with the
same bindings produce the same JSON value, hence byte-identical wire
text. -/
theorem c4_map_determinism (l1 l2 : List (PublicKey × Signature))
    (hp : l1.Perm l2) (hn : (l1.map Prod.fst).Nodup) :
    sigMapToJson (mapOfList l1) = sigMapToJson (mapOfList l2) ∧
    Json.render (sigMapToJson (mapOfList l1)) =
      Json.render (sigMapToJson (mapOfList l2)) ∧
    List.Pairwise (fun a b => bytesLt a.1.bytes b.1.bytes = true) (mapOfList l1) := by
  have heq := mapOfList_congr hp hn
  exact ⟨by rw [heq], by rw [heq], mapOfList_sorted l1⟩

/-- C4 witness: two concrete two-entry maps inserted in opposite
orders serialize identically. -/
theorem c4_witness :
    ([(pkB, sigA), (pkA, sigA)] : List (PublicKey × Signature)).Perm
      [(pkA, sigA), (pkB, sigA)] ∧
    (([(pkB, sigA), (pkA, sigA)] : List (PublicKey × Signature)).map Prod.fst).Nodup ∧
    sigMapToJson (mapOfList [(pkB, sigA), (pkA, sigA)]) =
      sigMapToJson (mapOfList [(pkA, sigA), (pkB, sigA)]) :=
  ⟨by decide, by decide,
    (c4_map_determinism [(pkB, sigA), (pkA, sigA)] [(pkA, sigA), (pkB, sigA)]
      (by decide) (by decide)).1⟩

/-- C5: `SetSpendTx::from_spend_tx` never produces a message from a
non-finalized spend transaction (the assertion aborts, modelled as
`none`), and on a finalized one stores the given outpoints and the
extracted raw transaction. -/
theorem c5_from_spend_tx (ops : List OutPoint) (tx : SpendTransaction) :
    (tx.is_finalized = false → coordinator.SetSpendTx.from_spend_tx ops tx = none) ∧
    (tx.is_finalized = true →
      coordinator.SetSpendTx.from_spend_tx ops tx = some ⟨ops, tx.extractTx⟩) := by
  constructor <;> intro h <;> simp [coordinator.SetSpendTx.from_spend_tx, h]

/-- C5 witness: both branches at a concrete spend transaction. -/
theorem c5_witness :
    coordinator.SetSpendTx.from_spend_tx [op0] ⟨tx1, false⟩ = none ∧
    coordinator.SetSpendTx.from_spend_tx [op0] ⟨tx1, true⟩ = some ⟨[op0], tx1⟩ :=
  ⟨(c5_from_spend_tx [op0] ⟨tx1, false⟩).1 rfl,
    (c5_from_spend_tx [op0] ⟨tx1, true⟩).2 rfl⟩

/-- C6: the six catalog shapes are exactly the params field-name sets,
and decoding any text blob that misses at least one required field of
every catalog shape returns the failure value (no variant is coerced,
no partial record is produced). -/
theorem c6_unknown_shape :
    (∀ p : RequestParams, paramsFieldNames p ∈ catalogFieldSets) ∧
    ∀ j : Json, (∀ fs ∈ catalogFieldSets, ∃ name ∈ fs, hasParamsField j name = false) →
      decodeRequest j = none := by
  constructor
  · intro p
    cases p with
    | wtSig q =>
      show ["signatures", "txid", "deposit_outpoint"] ∈ catalogFieldSets
      decide
    | setSpendTx q =>
      show ["deposit_outpoints", "transaction"] ∈ catalogFieldSets
      decide
    | getSpendTx q =>
      show ["deposit_outpoint"] ∈ catalogFieldSets
      decide
    | coordSig q =>
      show ["pubkey", "signature", "id"] ∈ catalogFieldSets
      decide
    | getSigs q =>
      show ["id"] ∈ catalogFieldSets
      decide
    | sign q =>
      show ["tx"] ∈ catalogFieldSets
      decide
  intro j h
  cases j with
  | str s => rfl
  | num n => rfl
  | bool b => rfl
  | arr l => rfl
  | obj ms =>
    cases hpf : getField ms "params" with
    | none => exact decodeRequest_noParams hpf
    | some pj =>
      cases pj with
      | obj pms =>
        have hmiss : ∀ fs ∈ catalogFieldSets, ∃ name ∈ fs, name ∉ pms.map Prod.fst := by
          intro fs hfs
          obtain ⟨name, hmem, hfalse⟩ := h fs hfs
          refine ⟨name, hmem, ?_⟩
          simpa [hasParamsField, hpf] using hfalse
        have e1 : watchtower.Sig.fromJson (Json.obj pms) = none := by
          obtain ⟨name, hmem, hnot⟩ := hmiss ["signatures", "txid", "deposit_outpoint"]
            (by simp [catalogFieldSets])
          apply wtSig_fromJson_missing
          rcases (show name = "signatures" ∨ name = "txid" ∨ name = "deposit_outpoint"
            by simpa using hmem) with rfl | rfl | rfl
          · exact Or.inl hnot
          · exact Or.inr (Or.inl hnot)
          · exact Or.inr (Or.inr hnot)
        have e2 : coordinator.SetSpendTx.fromJson (Json.obj pms) = none := by
          obtain ⟨name, hmem, hnot⟩ := hmiss ["deposit_outpoints", "transaction"]
            (by simp [catalogFieldSets])
          apply setSpendTx_fromJson_missing
          rcases (show name = "deposit_outpoints" ∨ name = "transaction"
            by simpa using hmem) with rfl | rfl
          · exact Or.inl hnot
          · exact Or.inr hnot
        have e3 : coordinator.GetSpendTx.fromJson (Json.obj pms) = none := by
          obtain ⟨name, hmem, hnot⟩ := hmiss ["deposit_outpoint"]
            (by simp [catalogFieldSets])
          apply getSpendTx_fromJson_missing
          rcases (show name = "deposit_outpoint" by simpa using hmem) with rfl
          exact hnot
        have e4 : coordinator.Sig.fromJson (Json.obj pms) = none := by
          obtain ⟨name, hmem, hnot⟩ := hmiss ["pubkey", "signature", "id"]
            (by simp [catalogFieldSets])
          apply coordSig_fromJson_missing
          rcases (show name = "pubkey" ∨ name = "signature" ∨ name = "id"
            by simpa using hmem) with rfl | rfl | rfl
          · exact Or.inl hnot
          · exact Or.inr (Or.inl hnot)
          · exact Or.inr (Or.inr hnot)
        have e5 : coordinator.GetSigs.fromJson (Json.obj pms) = none := by
          obtain ⟨name, hmem, hnot⟩ := hmiss ["id"] (by simp [catalogFieldSets])
          apply getSigs_fromJson_missing
          rcases (show name = "id" by simpa using hmem) with rfl
          exact hnot
        have e6 : cosigner.SignRequest.fromJson (Json.obj pms) = none := by
          obtain ⟨name, hmem, hnot⟩ := hmiss ["tx"] (by simp [catalogFieldSets])
          apply signRequest_fromJson_missing
          rcases (show name = "tx" by simpa using hmem) with rfl
          exact hnot
        exact decodeRequest_allFail hpf e1 e2 e3 e4 e5 e6
      | str s => exact decodeRequest_allFail hpf rfl rfl rfl rfl rfl rfl
      | num n => exact decodeRequest_allFail hpf rfl rfl rfl rfl rfl rfl
      | bool b => exact decodeRequest_allFail hpf rfl rfl rfl rfl rfl rfl
      | arr l => exact decodeRequest_allFail hpf rfl rfl rfl rfl rfl rfl

/-- A well-formed envelope whose params shape matches no catalog shape. -/
def j0 : Json := Json.obj [("method", Json.str "sig"),
  ("params", Json.obj [("foo", Json.num 1)]), ("id", Json.num 0)]

/-- C6 witness: the theorem applied to a concrete unknown-shape blob. -/
theorem c6_witness :
    (∀ fs ∈ catalogFieldSets, ∃ name ∈ fs, hasParamsField j0 name = false) ∧
    decodeRequest j0 = none :=
  ⟨by decide, c6_unknown_shape.2 j0 (by decide)⟩

/-- C7 fails as stated: a `SetSpendResult` response re-decodes as the
structurally identical `SigResult`, which is tried first in the
untagged union. -/
theorem c7_counterexample :
    decodeResponse (encodeResponse ⟨ResponseResult.setSpend ⟨true⟩, 0⟩) ≠
      some ⟨ResponseResult.setSpend ⟨true⟩, 0⟩ ∧
    decodeResponse (encodeResponse ⟨ResponseResult.setSpend ⟨true⟩, 0⟩) =
      some ⟨ResponseResult.sig ⟨true⟩, 0⟩ := by decide

/-- C7 (amended): every well-formed response result other than the
`SetSpend` variant round-trips through the wire form for each of the
ids 0, 1946, 988364 and 4294967295, and `u32::MAX` renders as the
plain decimal literal `4294967295`. -/
theorem c7_response_round_trip (R : ResponseResult) (i : Nat)
    (hwf : WfResponseResult R) (hns : ∀ r, R ≠ ResponseResult.setSpend r)
    (hi : i ∈ ([0, 1946, 988364, 4294967295] : List Nat)) :
    decodeResponse (encodeResponse ⟨R, i⟩) = some ⟨R, i⟩ ∧
    natToDec 4294967295 = ("4294967295" : String).data := by
  have hi32 : i < 2 ^ 32 := by
    simp only [List.mem_cons, List.not_mem_nil, or_false] at hi
    rcases hi with rfl | rfl | rfl | rfl <;> norm_num
  exact ⟨decodeResponse_encoded (responseResult_fromJson_toJson hwf hns) hi32, by decide⟩

/-- C7 witness: the round-trip at a concrete `SigResult` response with
id `u32::MAX`. -/
theorem c7_witness :
    decodeResponse (encodeResponse ⟨ResponseResult.sig ⟨true⟩, 4294967295⟩) =
      some ⟨ResponseResult.sig ⟨true⟩, 4294967295⟩ ∧
    natToDec 4294967295 = ("4294967295" : String).data :=
  c7_response_round_trip (ResponseResult.sig ⟨true⟩) 4294967295 (by decide)
    (fun r h => ResponseResult.noConfusion h) (by decide)

/-- C8: the transaction hex codec emits lowercase hex with no
separators and no prefix; decoding fails exactly when the hex alphabet
is invalid or the bytes are not a structurally valid consensus
transaction; and decode ∘ encode is the identity on every well-formed
transaction, zero-input and zero-output ones included. -/
theorem c8_tx_hex_codec :
    (∀ t : Transaction, WfTx t → ∀ c ∈ (serializeTxHex t).data, isLowerHexChar c) ∧
    (∀ s : String, deserializeTxHex s = none ↔
      hexToBytes s.data = none ∨ ∃ bs, hexToBytes s.data = some bs ∧ decTxFull bs = none) ∧
    (∀ t : Transaction, WfTx t → deserializeTxHex (serializeTxHex t) = some t) := by
  refine ⟨?_, ?_, ?_⟩
  · intro t ht c hc
    have hd : (serializeTxHex t).data = bytesToHex (encTx t) := rfl
    rw [hd] at hc
    exact bytesToHex_lowerHex (encTx_bytes_lt ht) c hc
  · intro s
    cases hx : hexToBytes s.data with
    | none => simp [deserializeTxHex, hx]
    | some bs =>
      simp only [deserializeTxHex, hx, Option.some_bind]
      constructor
      · intro hd
        exact Or.inr ⟨bs, rfl, hd⟩
      · rintro (h | ⟨bs', hbs, hd⟩)
        · exact absurd h (by simp)
        · cases hbs
          exact hd
  · intro t ht
    exact deserializeTxHex_serializeTxHex ht

/-- C8 witness: the codec round-trip at a concrete one-input
transaction and at the zero-input transaction of the spec's test
contexts. -/
theorem c8_witness :
    WfTx tx1 ∧ deserializeTxHex (serializeTxHex tx1) = some tx1 ∧
    deserializeTxHex (serializeTxHex txNoInputs) = some txNoInputs :=
  ⟨by decide, c8_tx_hex_codec.2.2 tx1 (by decide),
    c8_tx_hex_codec.2.2 txNoInputs (by decide)⟩

/-- C9: an empty `Sigs` map serializes its `signatures` field as the
empty object and decodes back to the empty mapping; an empty
`SignResult` serializes `signatures` as the empty array and decodes
back to the empty sequence. -/
theorem c9_empty_collections :
    encodeResponse ⟨ResponseResult.sigs ⟨[]⟩, 2234⟩ =
      Json.obj [("result", Json.obj [("signatures", Json.obj [])]), ("id", Json.num 2234)] ∧
    decodeResponse (encodeResponse ⟨ResponseResult.sigs ⟨[]⟩, 2234⟩) =
      some ⟨ResponseResult.sigs ⟨[]⟩, 2234⟩ ∧
    encodeResponse ⟨ResponseResult.signResult ⟨[]⟩, 975687⟩ =
      Json.obj [("result", Json.obj [("signatures", Json.arr [])]), ("id", Json.num 975687)] ∧
    decodeResponse (encodeResponse ⟨ResponseResult.signResult ⟨[]⟩, 975687⟩) =
      some ⟨ResponseResult.signResult ⟨[]⟩, 975687⟩ :=
  ⟨rfl, by decide, rfl, by decide⟩

/-- C10: request decoding dispatches on the structural shape of
`params` alone — the `method` string is accepted verbatim and never
validated, so any method string (for example `"get_sigs"` on a
watchtower `Sig` shape) decodes into the variant its params shape
selects. -/
theorem c10_method_not_validated (m : String) (p : RequestParams) (i : Nat)
    (h : WfRequestParams p) (hi : i < 2 ^ 32) :
    decodeRequest (Json.obj [("method", Json.str m), ("params", paramsToJson p),
      ("id", Json.num i)]) = some (mkRequest m p i) :=
  decodeRequest_encodedParams h hi

/-- C10 witness: a watchtower `Sig` shape labeled `"get_sigs"` still
decodes as the `WtSig` variant. -/
theorem c10_witness :
    WfRequestParams (RequestParams.wtSig wtP0) ∧
    decodeRequest (Json.obj [("method", Json.str "get_sigs"),
      ("params", paramsToJson (RequestParams.wtSig wtP0)), ("id", Json.num 0)]) =
      some (mkRequest "get_sigs" (RequestParams.wtSig wtP0) 0) :=
  ⟨by decide, c10_method_not_validated "get_sigs" (RequestParams.wtSig wtP0) 0
    (by decide) (by decide)⟩

end Revault
